import Mathlib

/-!
Verification of the chart data-transformation layer of the frontend repository
(`client/src/components/visualizations/dynamic-chart.tsx` and
`client/src/components/visualizations/treemap-chart.tsx`).

The TypeScript code is shallowly embedded:

* JavaScript values flowing through rows are modelled by `JSVal`
  (strings, numbers, booleans, `null`, `undefined`).  JavaScript numbers are
  modelled by `ℚ`; the decimal literals of the source (`0.8`, `0.4`, `0.05`)
  are the corresponding rationals.  `ℚ` has no `NaN`/`Infinity`: the places
  where the source can produce them are modelled explicitly (see the comments
  at `parseFloatVal`, `listMinD`, `applyTransform`), and the one place where a
  `NaN` propagates into an array index and throws a `TypeError`
  (`bins[NaN].count++` in the `bin:` branch) is modelled by `Option`, with
  `none` standing for the thrown exception.
* A row (a JS object) is an association list `Row`; `getField` is property
  read (first binding wins, `undefined` when absent) and `mkObj` builds an
  object literal (later duplicate keys overwrite earlier ones, as in JS).
* `Math.random()` is modelled by an explicit stream `ℕ → ℚ` threaded through
  `processHeatmapChart`; `Math.log10`/`Math.sqrt` (used only by transforms no
  claim examines) are fields of an explicit environment `JSEnv`.
* `String(n)` for a number, `parseFloat`, `parseInt`, `split(':')`,
  `includes`, `toFixed(1)`, `localeCompare` and the `Date` constructor are
  modelled by the helper functions below; each states its modelling
  convention in its doc comment.
* `Array.prototype.sort` with a comparator (V8: a stable sort) is modelled by
  `List.insertionSort`, which is stable for the total preorders the source's
  comparators induce.
-/

/-- A JavaScript value as it occurs in the data rows handled by
`dynamic-chart.tsx`: strings, (finite) numbers, booleans, `null` and
`undefined`.  Numbers are modelled by `ℚ`. -/
inductive JSVal where
  | str : String → JSVal
  | num : ℚ → JSVal
  | bool : Bool → JSVal
  | null : JSVal
  | undef : JSVal
deriving DecidableEq, Repr

/-- A JS object (a data row): an association list from property names to
values. -/
abbrev Row : Type := List (String × JSVal)

/-- Property read `item[column]`: the first binding of the key, `undefined`
when absent (a genuine JS object has no duplicate keys, so "first" is
unambiguous there). -/
def getField (r : Row) (k : String) : JSVal :=
  match r with
  | [] => JSVal.undef
  | (k', v) :: rest => if k' = k then v else getField rest k

/-- JavaScript truthiness of a value: `""`, `0`, `false`, `null` and
`undefined` are falsy. -/
def JSVal.truthy : JSVal → Bool
  | .str s => s ≠ ""
  | .num q => q ≠ 0
  | .bool b => b
  | .null => false
  | .undef => false

/-- `String(n)` for a JS number, modelled as the canonical print of the
rational (integers print as in JS; the claims never depend on the rendering
of non-integer numbers). -/
def jsNumToString (q : ℚ) : String :=
  if q.den = 1 then toString q.num else toString q.num ++ "/" ++ toString q.den

/-- The JS `String(v)` coercion. -/
def jsToString : JSVal → String
  | .str s => s
  | .num q => jsNumToString q
  | .bool b => if b then "true" else "false"
  | .null => "null"
  | .undef => "undefined"

/-- Property write: replace the (first) binding of `k` in place, or append a
new binding — the semantics of assigning a property of a JS object. -/
def setField (r : Row) (k : String) (v : JSVal) : Row :=
  match r with
  | [] => [(k, v)]
  | (k', v') :: rest => if k' = k then (k, v) :: rest else (k', v') :: setField rest k v

/-- An object literal `{ k₁: v₁, …, kₙ: vₙ }`: properties assigned left to
right, a repeated key overwriting the earlier binding (JS semantics). -/
def mkObj (l : List (String × JSVal)) : Row :=
  l.foldl (fun r kv => setField r kv.1 kv.2) []

/-- Read a field expected to be numeric; non-numeric reads as `0` (used only
to state sums over emitted records). -/
def getNum (r : Row) (k : String) : ℚ :=
  match getField r k with
  | .num q => q
  | _ => 0

/-! ### String and number coercions -/

/-- The numeric value of a run of decimal digits. -/
def digitsToNat (ds : List Char) : ℕ :=
  ds.foldl (fun a c => a * 10 + (c.toNat - 48)) 0

/-- `parseFloat` on a character list: optional leading whitespace, optional
sign, decimal digits with at most one point; `none` models `NaN`.
Modelling convention: exponent forms (`1e3`) and `Infinity` are not
modelled — no claim touches them. -/
def parseFloatChars (cs : List Char) : Option ℚ :=
  let cs1 := cs.dropWhile (·.isWhitespace)
  let signAndRest : ℚ × List Char :=
    match cs1 with
    | '-' :: rest => (-1, rest)
    | '+' :: rest => (1, rest)
    | _ => (1, cs1)
  let sign := signAndRest.1
  let cs2 := signAndRest.2
  let ip := cs2.takeWhile (·.isDigit)
  let rest := cs2.dropWhile (·.isDigit)
  match rest with
  | '.' :: rest2 =>
    let fp := rest2.takeWhile (·.isDigit)
    if ip.isEmpty && fp.isEmpty then none
    else some (sign * ((digitsToNat ip : ℚ) + (digitsToNat fp : ℚ) / (10 ^ fp.length)))
  | _ => if ip.isEmpty then none else some (sign * (digitsToNat ip : ℚ))

/-- `parseFloat(s)`; `none` models `NaN`. -/
def parseFloatStr (s : String) : Option ℚ :=
  parseFloatChars s.toList

/-- `parseInt(s)` (radix 10): optional whitespace, optional sign, decimal
digits; `none` models `NaN`. -/
def parseIntStr (s : String) : Option ℤ :=
  let cs1 := s.toList.dropWhile (·.isWhitespace)
  let signAndRest : ℤ × List Char :=
    match cs1 with
    | '-' :: rest => (-1, rest)
    | '+' :: rest => (1, rest)
    | _ => (1, cs1)
  let ds := signAndRest.2.takeWhile (·.isDigit)
  if ds.isEmpty then none else some (signAndRest.1 * (digitsToNat ds : ℤ))

/-- `parseInt(s) || d`: the parsed integer unless the parse is `NaN` or `0`
(both falsy), in which case the default. -/
def parseIntOr (s : String) (d : ℤ) : ℤ :=
  match parseIntStr s with
  | some n => if n = 0 then d else n
  | none => d

/-- `parseFloat(s) || d` with the same falsy-default behaviour. -/
def parseFloatOr (s : String) (d : ℚ) : ℚ :=
  match parseFloatStr s with
  | some q => if q = 0 then d else q
  | none => d

/-- `parseFloat(String(v))`; for a number argument this is the identity
(`parseFloat(String(n)) = n` for every finite JS number), for a string it is
`parseFloatStr`, and for `true`/`false`/`null`/`undefined` the coerced
strings do not parse. -/
def parseFloatVal : JSVal → Option ℚ
  | .num q => some q
  | .str s => parseFloatStr s
  | .bool _ => none
  | .null => none
  | .undef => none

/-- `String(v).replace(/[^0-9.-]/g, '')`: keep only digits, `.` and `-`.
For a number argument the print contains only such characters, so the strip
is the identity. -/
def stripNonNumeric (s : String) : String :=
  String.mk (s.toList.filter (fun c => c.isDigit || c = '.' || c = '-'))

/-- `parseFloat(String(v).replace(/[^0-9.-]/g, ''))`. -/
def parseFloatStripped : JSVal → Option ℚ
  | .num q => some q
  | .str s => parseFloatStr (stripNonNumeric s)
  | .bool _ => none
  | .null => none
  | .undef => none

/-- `Math.floor` (via `Rat.floor`, which evaluates in the kernel). -/
def qFloor (q : ℚ) : ℤ := Rat.floor q

/-- `Math.round`: round half towards positive infinity. -/
def jsRound (q : ℚ) : ℤ := qFloor (q + 1 / 2)

/-- `x.toFixed(1)`: one decimal digit, rounding as `toFixed` does (nearest,
ties up).  Modelling convention: the negative-zero rendering `"-0.0"` is not
reproduced. -/
def qToFixed1 (q : ℚ) : String :=
  let n : ℤ := jsRound (q * 10)
  let s := toString (n.natAbs / 10) ++ "." ++ toString (n.natAbs % 10)
  if n < 0 then "-" ++ s else s

/-- `split(sep)` on a character list. -/
def splitOnChar (sep : Char) : List Char → List (List Char)
  | [] => [[]]
  | c :: rest =>
    if c = sep then [] :: splitOnChar sep rest
    else
      match splitOnChar sep rest with
      | [] => [[c]]
      | p :: ps => (c :: p) :: ps

/-- `t.split(':')[1]`, the empty string when the index is out of range (the
source only reads it under a `startsWith` guard, where JS would give
`undefined`; both feed the same downstream defaults). -/
def splitColonPart1 (t : String) : String :=
  String.mk ((splitOnChar ':' t.toList).getD 1 [])

/-- `t.startsWith(p)`. -/
def jsStartsWith (t p : String) : Bool :=
  p.toList.isPrefixOf t.toList

/-- `s.includes(sub)`: substring containment. -/
def jsIncludes (s sub : String) : Bool :=
  (s.toList.tails.any fun t => sub.toList.isPrefixOf t)

/-- `Math.min(...values)` with a default for the empty spread (JS yields
`Infinity` there; the sole empty-spread call site leaves the result unused
except in range labels, see `applyTransform`). -/
def listMinD (d : ℚ) : List ℚ → ℚ
  | [] => d
  | v :: vs => vs.foldl min v

/-- `Math.max(...values)` with a default for the empty spread. -/
def listMaxD (d : ℚ) : List ℚ → ℚ
  | [] => d
  | v :: vs => vs.foldl max v

/-! ### Grouped counting (`acc[key] = (acc[key] || 0) + 1` folds)

JS accumulates these counts in a plain object and later reads
`Object.entries`, whose order for the (non-integer-like) keys produced here
is insertion order.  `bumpKey` reproduces exactly that: increment the
existing binding in place, or append a new one. -/

/-- One step of `acc[key] = (acc[key] || 0) + 1`. -/
def bumpKey : List (String × ℕ) → String → List (String × ℕ)
  | [], k => [(k, 1)]
  | (k', n) :: rest, k =>
    if k' = k then (k', n + 1) :: rest else (k', n) :: bumpKey rest k

/-- Fold a key list into insertion-ordered counts. -/
def foldCounts (keys : List String) : List (String × ℕ) :=
  keys.foldl bumpKey []

/-- The object key a row contributes under: `item[column] || 'Unknown'`
coerced to a property name. -/
def groupKey (r : Row) (c : String) : String :=
  let v := getField r c
  if v.truthy then jsToString v else "Unknown"

/-- The grouped counts of the `count`-style transforms:
`data.reduce((acc, item) => { const key = item[column] || 'Unknown';
acc[key] = (acc[key] || 0) + 1; return acc; }, {})`. -/
def countsOf (data : List Row) (c : String) : List (String × ℕ) :=
  foldCounts (data.map (fun r => groupKey r c))


/-! ### The JS comparison model used by the sorting call sites -/

/-- `Number(v)` coercion (`none` models `NaN`): used only by the abstract
relational operators on mixed operands. -/
def jsToNumber : JSVal → Option ℚ
  | .num q => some q
  | .str s =>
    let cs := ((s.toList.dropWhile (·.isWhitespace)).reverse.dropWhile (·.isWhitespace)).reverse
    if cs.isEmpty then some 0
    else if cs.all (fun c => c.isDigit || c = '.' || c = '-' || c = '+') then parseFloatChars cs
    else none
  | .bool b => some (if b then 1 else 0)
  | .null => some 0
  | .undef => none

/-- `a < b` in JS: lexicographic when both operands are strings, else numeric
with `NaN` comparisons false. -/
def jsLtB (a b : JSVal) : Bool :=
  match a, b with
  | .str s, .str t => decide (s < t)
  | _, _ =>
    match jsToNumber a, jsToNumber b with
    | some x, some y => decide (x < y)
    | _, _ => false

/-- `a > b` in JS. -/
def jsGtB (a b : JSVal) : Bool :=
  match a, b with
  | .str s, .str t => decide (t < s)
  | _, _ =>
    match jsToNumber a, jsToNumber b with
    | some x, some y => decide (y < x)
    | _, _ => false

/-- The `rolling_mean:` comparator
`(a, b) => aVal < bVal ? -1 : aVal > bVal ? 1 : 0`. -/
def jsCmpVal (a b : JSVal) : ℤ :=
  if jsLtB a b then -1 else if jsGtB a b then 1 else 0

/-- `arr.slice(a, b)` with JS index clamping (negative indices count from the
end). -/
def jsSlice (l : List α) (a b : ℤ) : List α :=
  let len : ℤ := l.length
  let f : ℤ := if a < 0 then max 0 (len + a) else min a len
  let t : ℤ := if b < 0 then max 0 (len + b) else min b len
  (l.drop f.toNat).take (t.toNat - f.toNat)

/-- The descending-count comparator `([, a], [, b]) => b - a` as a relation:
`p` may precede `q` iff `q.count ≤ p.count`. -/
def countDesc (p q : String × ℕ) : Prop := q.2 ≤ p.2

instance : DecidableRel countDesc := fun p q => Nat.decLe q.2 p.2

instance : IsTotal (String × ℕ) countDesc := ⟨fun a b => le_total b.2 a.2⟩

instance : IsTrans (String × ℕ) countDesc := ⟨fun _ _ _ h1 h2 => le_trans h2 h1⟩

/-- The ascending-count comparator `([, a], [, b]) => a - b` as a relation. -/
def countAsc (p q : String × ℕ) : Prop := p.2 ≤ q.2

instance : DecidableRel countAsc := fun p q => Nat.decLe p.2 q.2

/-- The `alphabetical` comparator
`String(a[column] || '').localeCompare(String(b[column] || ''))`, with
`localeCompare` modelled as codepoint order. -/
def alphaRel (c : String) (a b : Row) : Prop :=
  jsToString (if (getField a c).truthy then getField a c else .str "") ≤
    jsToString (if (getField b c).truthy then getField b c else .str "")

instance (c : String) : DecidableRel (alphaRel c) := fun a b =>
  inferInstanceAs (Decidable (_ ≤ _))

/-- The `rolling_mean:` sort order on rows (comparator value `≤ 0`). -/
def rollRel (c : String) (a b : Row) : Prop :=
  jsCmpVal (getField a c) (getField b c) ≤ 0

instance (c : String) : DecidableRel (rollRel c) := fun a b =>
  inferInstanceAs (Decidable (_ ≤ _))

/-! ### Dates (`new Date(...)` and the `date_group:` keys) -/

/-- A calendar date as far as the grouping keys need it. -/
structure SDate where
  year : ℕ
  month : ℕ
  day : ℕ
deriving DecidableEq, Repr

/-- Parse an ISO `YYYY-MM-DD` string. -/
def parseDateChars : List Char → Option SDate
  | [y1, y2, y3, y4, '-', m1, m2, '-', d1, d2] =>
    if y1.isDigit && y2.isDigit && y3.isDigit && y4.isDigit && m1.isDigit && m2.isDigit
        && d1.isDigit && d2.isDigit then
      let m := digitsToNat [m1, m2]
      let d := digitsToNat [d1, d2]
      if 1 ≤ m ∧ m ≤ 12 ∧ 1 ≤ d ∧ d ≤ 31 then
        some ⟨digitsToNat [y1, y2, y3, y4], m, d⟩
      else none
    else none
  | _ => none

/-- `new Date(v)` followed by the `isNaN(date.getTime())` validity test:
`some` a date iff the value parses.  Modelling convention: the `Date`
constructor is modelled on ISO `YYYY-MM-DD` strings (parsed as UTC midnight,
so `getFullYear`/`getMonth`/`getDate`/`toISOString` read back the literal
fields); every other input is modelled as an invalid date. -/
def jsParseDate : JSVal → Option SDate
  | .str s => parseDateChars s.toList
  | _ => none

/-- `toLocaleDateString('en-US', { month: 'short' })` month names. -/
def monthShort : ℕ → String
  | 1 => "Jan" | 2 => "Feb" | 3 => "Mar" | 4 => "Apr" | 5 => "May" | 6 => "Jun"
  | 7 => "Jul" | 8 => "Aug" | 9 => "Sep" | 10 => "Oct" | 11 => "Nov" | 12 => "Dec"
  | _ => ""

/-- The month number of a short month name (used by the `month_year`
chronological sort). -/
def monthIndex (s : String) : Option ℕ :=
  if s = "Jan" then some 1 else if s = "Feb" then some 2 else if s = "Mar" then some 3
  else if s = "Apr" then some 4 else if s = "May" then some 5 else if s = "Jun" then some 6
  else if s = "Jul" then some 7 else if s = "Aug" then some 8 else if s = "Sep" then some 9
  else if s = "Oct" then some 10 else if s = "Nov" then some 11 else if s = "Dec" then some 12
  else none

/-- Two-digit padding for ISO date components. -/
def pad2 (n : ℕ) : String := if n < 10 then "0" ++ toString n else toString n

/-- `date.toISOString().split('T')[0]` (years parsed here are four-digit, so
no further padding arises). -/
def isoDayKey (d : SDate) : String :=
  toString d.year ++ "-" ++ pad2 d.month ++ "-" ++ pad2 d.day

/-- The bucket key of `date_group:<granularity>` for a successfully parsed
date; the `switch` default keeps the raw value (as a property key, i.e.
string-coerced). -/
def dateGroupKey (groupType : String) (v : JSVal) (d : SDate) : String :=
  if groupType = "year" then toString d.year
  else if groupType = "quarter" then toString d.year ++ "-Q" ++ toString ((d.month + 2) / 3)
  else if groupType = "month_year" then monthShort d.month ++ " " ++ toString d.year
  else if groupType = "day" then isoDayKey d
  else jsToString v

/-- The key a row contributes to the `date_group:` accumulator, `none` when
the row is skipped (falsy value, or a value that does not parse as a date —
the source comments this path `// Skip invalid dates`). -/
def dateGroupRowKey (c groupType : String) (r : Row) : Option String :=
  let v := getField r c
  if v.truthy then
    match jsParseDate v with
    | some d => some (dateGroupKey groupType v d)
    | none => none
  else none

/-- `new Date(key + ' 1').getTime()` for a `"Mon YYYY"` key, up to the strictly
monotone rescaling `months since year 0` (only the order matters to the
sort); an unparseable key is modelled as `0` (a `NaN` comparator). -/
def monthYearTime (s : String) : ℤ :=
  match (splitOnChar ' ' s.toList).map String.mk with
  | [mon, yr] =>
    match monthIndex mon, parseIntStr yr with
    | some mi, some y => y * 12 + mi
    | _, _ => 0
  | _ => 0

/-- The `date_group:` entry sort for `month_year` keys. -/
def monthYearRel (p q : String × ℕ) : Prop := monthYearTime p.1 ≤ monthYearTime q.1

instance : DecidableRel monthYearRel := fun p q => inferInstanceAs (Decidable (_ ≤ _))

/-- The `date_group:` entry sort for the other granularities
(`a.localeCompare(b)`, modelled as codepoint order). -/
def keyLe (p q : String × ℕ) : Prop := p.1 ≤ q.1

instance : DecidableRel keyLe := fun p q => inferInstanceAs (Decidable (_ ≤ _))

/-! ### The transform branches of `applyTransform` -/

/-- The environment of transcendental JS functions used by branches no claim
examines (`Math.log10` in `log_scale`, `Math.sqrt` in `z_score`/`std`); the
theorems hold for every environment. -/
structure JSEnv where
  log10 : ℚ → ℚ
  sqrtq : ℚ → ℚ

/-- One emitted record of the `count`-style branches:
`{ [column]: name, count: value, value: value }`. -/
def countRecord (c : String) (p : String × ℕ) : Row :=
  mkObj [(c, .str p.1), ("count", .num p.2), ("value", .num p.2)]

/-- The `count` branch. -/
def countTr (data : List Row) (c : String) : List Row :=
  (countsOf data c).map (countRecord c)

/-- `acc[key] = (acc[key] || 0) + value` (numeric accumulator, insertion
order). -/
def bumpSum : List (String × ℚ) → String → ℚ → List (String × ℚ)
  | [], k, v => [(k, v)]
  | (k', s) :: rest, k, v =>
    if k' = k then (k', s + v) :: rest else (k', s) :: bumpSum rest k v

/-- The `aggregate_sum` branch: key and summed value are both read from the
same `column` (as in the source). -/
def aggregateSumTr (data : List Row) (c : String) : List Row :=
  let sums := data.foldl
    (fun acc r => bumpSum acc (groupKey r c) ((parseFloatStripped (getField r c)).getD 0)) []
  sums.map (fun p =>
    mkObj [(c, .str p.1), ("sum", .num p.2), ("value", .num p.2), ("count", .num 1)])

/-- `acc[key] = { sum: sum + v, count: count + 1 }`. -/
def bumpSumCount : List (String × ℚ × ℕ) → String → ℚ → List (String × ℚ × ℕ)
  | [], k, v => [(k, v, 1)]
  | (k', s, n) :: rest, k, v =>
    if k' = k then (k', s + v, n + 1) :: rest else (k', s, n) :: bumpSumCount rest k v

/-- The `aggregate_mean` branch. -/
def aggregateMeanTr (data : List Row) (c : String) : List Row :=
  let groups := data.foldl
    (fun acc r => bumpSumCount acc (groupKey r c) ((parseFloatStripped (getField r c)).getD 0)) []
  groups.map (fun p =>
    mkObj [(c, .str p.1), ("mean", .num (p.2.1 / p.2.2)), ("value", .num (p.2.1 / p.2.2)),
      ("count", .num p.2.2)])

/-- The `percent_of_total` branch
(`Math.round((count / total) * 100 * 100) / 100`). -/
def percentOfTotalTr (data : List Row) (c : String) : List Row :=
  let counts := countsOf data c
  let total : ℚ := ((counts.map Prod.snd).sum : ℕ)
  counts.map (fun p =>
    let pct : ℚ := (jsRound ((p.2 / total) * 100 * 100) : ℤ) / 100
    mkObj [(c, .str p.1), ("count", .num p.2), ("value", .num pct), ("percentage", .num pct)])

/-- The `rank:<asc|desc>` branch. -/
def rankTr (data : List Row) (c : String) (dirPart : String) : List Row :=
  let direction := if dirPart = "" then "desc" else dirPart
  let counts := countsOf data c
  let sorted := if direction = "asc" then List.insertionSort countAsc counts
    else List.insertionSort countDesc counts
  sorted.enum.map (fun ip =>
    mkObj [(c, .str ip.2.1), ("count", .num ip.2.2), ("value", .num ip.2.2),
      ("rank", .num (ip.1 + 1))])

/-- The `rolling_mean:<w>` branch.  `ℚ` division by zero models the `NaN`
mean of an empty window (no claim examines this branch). -/
def rollingMeanTr (data : List Row) (c : String) (wPart : String) : List Row :=
  let window : ℤ := parseIntOr wPart 3
  let sorted := List.insertionSort (rollRel c) data
  sorted.enum.map (fun ip =>
    let start : ℤ := max 0 ((ip.1 : ℤ) - qFloor ((window : ℚ) / 2))
    let stop : ℤ := min (sorted.length : ℤ) (start + window)
    let windowData := jsSlice sorted start stop
    let s : ℚ := (windowData.map (fun it => (parseFloatVal (getField it c)).getD 0)).sum
    let mean := s / (windowData.length : ℚ)
    mkObj (ip.2 ++ [(c ++ "_rolling_mean", .num mean), ("value", .num mean), ("count", .num 1)]))

/-- The grouped counts of `date_group:` (rows with falsy or unparseable
values contribute nothing), then the chronological/lexicographic entry
sort, then the emitted records. -/
def dateGroupTr (data : List Row) (c : String) (groupType : String) : List Row :=
  let grouped := foldCounts (data.filterMap (dateGroupRowKey c groupType))
  let sorted := if groupType = "month_year" then List.insertionSort monthYearRel grouped
    else List.insertionSort keyLe grouped
  sorted.map (fun p => mkObj [(c, .str p.1), ("count", .num p.2), ("value", .num p.2)])

/-- `Math.ceil(Math.sqrt(n))` on a cardinality. -/
def natCeilSqrt (n : ℕ) : ℕ :=
  if Nat.sqrt n * Nat.sqrt n = n then Nat.sqrt n else Nat.sqrt n + 1

/-- The bin index `Math.min(Math.floor((v - min) / width), binCount - 1)` of
one value, `none` when the JS computation indexes `bins` outside its range
and throws (`bins[i]` is `undefined` there, so `bins[i].count++` is a
`TypeError`).  With `width = 0` the source divides by zero: `(v - min) / 0`
is `NaN` for `v = min` (crash) and `±Infinity` otherwise (clamped by
`Math.min` to `binCount - 1` for `v > min`; `v < min` cannot reach this
point, as `min` is the minimum of the values). -/
def binAssign (minV w : ℚ) (nBins : ℤ) (v : ℚ) : Option ℤ :=
  if w = 0 then
    if v = minV then none else some (nBins - 1)
  else some (min (qFloor ((v - minV) / w)) (nBins - 1))

/-- `bins[i].count++` — `none` when `i` is outside the array. -/
def bumpBin : List ℕ → ℤ → Option (List ℕ)
  | [], _ => none
  | n :: rest, i =>
    if i = 0 then some ((n + 1) :: rest)
    else if i < 0 then none
    else (bumpBin rest (i - 1)).map (n :: ·)

/-- `values.forEach(value => { bins[binIndex].count++ })`, propagating the
crash. -/
def binFoldCounts (assign : ℚ → Option ℤ) : List ℚ → List ℕ → Option (List ℕ)
  | [], counts => some counts
  | v :: vs, counts =>
    match assign v with
    | none => none
    | some i =>
      match bumpBin counts i with
      | none => none
      | some counts2 => binFoldCounts assign vs counts2

/-- The coerced numeric values a `bin:`/`normalize`/`sum`-style branch works
on: `parseFloat(String(item[column])) || 0` (the source's subsequent
`.filter(v => !isNaN(v))` is the identity, `|| 0` having already replaced
`NaN`). -/
def numValues (data : List Row) (c : String) : List ℚ :=
  data.map (fun r => (parseFloatVal (getField r c)).getD 0)

/-- The emitted records of the live `bin:` branch: the `i`-th bin's range
label `"lo-hi"` zipped with its count, as `{ [column]: range, count }`. -/
def binRecordsOf (c : String) (minV w : ℚ) (n : ℕ) (counts : List ℕ) : List Row :=
  (((List.range n).map (fun (i : ℕ) =>
    qToFixed1 (minV + (i : ℚ) * w) ++ "-" ++ qToFixed1 (minV + ((i : ℚ) + 1) * w))).zip
    counts).map (fun p => mkObj [(c, .str p.1), ("count", .num p.2)])

/-- The live `bin:` branch of `applyTransform` (the one at its first
occurrence in the dispatch chain; a second, unreachable `bin:` branch with
`quartile` support sits further down, see `binTrShadowed`).  For an empty
`values` the JS `Math.min()`/`Math.max()` spreads give infinities that end
up only in the (unconsulted) range labels; the default `0` of `listMinD`
changes those labels but not the (all-zero) counts. -/
def binTr (data : List Row) (c : String) (binParam : String) : Option (List Row) :=
  let values := numValues data c
  let minV := listMinD 0 values
  let maxV := listMaxD 0 values
  let binCount : ℤ := if binParam = "auto" then (natCeilSqrt values.length : ℤ)
    else parseIntOr binParam 10
  let w : ℚ := (maxV - minV) / (binCount : ℚ)
  match binFoldCounts (binAssign minV w binCount) values (List.replicate binCount.toNat 0) with
  | none => none
  | some counts => some (binRecordsOf c minV w binCount.toNat counts)

/-- The `topk:<k>` branch. -/
def topkTr (data : List Row) (c : String) (kPart : String) : List Row :=
  let k : ℤ := parseIntOr kPart 10
  let sorted := List.insertionSort countDesc (countsOf data c)
  (jsSlice sorted 0 k).map (countRecord c)

/-- The `bottomk:<k>` branch. -/
def bottomkTr (data : List Row) (c : String) (kPart : String) : List Row :=
  let k : ℤ := parseIntOr kPart 5
  let sorted := List.insertionSort countAsc (countsOf data c)
  (jsSlice sorted 0 k).map (countRecord c)

/-- The `other_group:<threshold>` branch. -/
def otherGroupTr (data : List Row) (c : String) (thPart : String) : List Row :=
  let threshold := parseFloatOr thPart (1 / 20)
  let counts := countsOf data c
  let total : ℚ := ((counts.map Prod.snd).sum : ℕ)
  let minCount := total * threshold
  let kept := counts.filter (fun p => minCount ≤ (p.2 : ℚ))
  let otherCount := ((counts.filter (fun p => ¬ minCount ≤ (p.2 : ℚ))).map Prod.snd).sum
  kept.map (countRecord c) ++
    (if 0 < otherCount then [countRecord c ("Other", otherCount)] else [])

/-- The `alphabetical` branch. -/
def alphabeticalTr (data : List Row) (c : String) : List Row :=
  List.insertionSort (alphaRel c) data

/-- The `frequency` branch. -/
def frequencyTr (data : List Row) (c : String) : List Row :=
  (List.insertionSort countDesc (countsOf data c)).map (countRecord c)

/-- The second `bin:` branch of the source (with `quartile` support).  It is
dead code — the dispatch chain tests `startsWith('bin:')` twice and the
first test (see `binTr`) always wins — but is embedded for fidelity. -/
def binTrShadowed (data : List Row) (c : String) (binParam : String) : Option (List Row) :=
  let values := numValues data c
  if values.isEmpty then some [] else
  let minV := listMinD 0 values
  let maxV := listMaxD 0 values
  if binParam = "quartile" then
    let sortedVals := List.insertionSort (· ≤ ·) values
    let q1 := sortedVals.getD (values.length / 4) 0
    let q2 := sortedVals.getD (values.length / 2) 0
    let q3 := sortedVals.getD (3 * values.length / 4) 0
    let c1 := (values.filter (fun v => v ≤ q1)).length
    let c2 := (values.filter (fun v => ¬ v ≤ q1 ∧ v ≤ q2)).length
    let c3 := (values.filter (fun v => ¬ v ≤ q1 ∧ ¬ v ≤ q2 ∧ v ≤ q3)).length
    let c4 := (values.filter (fun v => ¬ v ≤ q1 ∧ ¬ v ≤ q2 ∧ ¬ v ≤ q3)).length
    some [countRecord c ("Q1 (≤" ++ qToFixed1 q1 ++ ")", c1),
      countRecord c ("Q2 (" ++ qToFixed1 q1 ++ "-" ++ qToFixed1 q2 ++ ")", c2),
      countRecord c ("Q3 (" ++ qToFixed1 q2 ++ "-" ++ qToFixed1 q3 ++ ")", c3),
      countRecord c ("Q4 (≥" ++ qToFixed1 q3 ++ ")", c4)]
  else
    let binCount : ℤ := if binParam = "auto" then (natCeilSqrt values.length : ℤ)
      else parseIntOr binParam 10
    let w : ℚ := (maxV - minV) / (binCount : ℚ)
    let ranges := (List.range binCount.toNat).map (fun (i : ℕ) =>
      qToFixed1 (minV + (i : ℚ) * w) ++ "-" ++ qToFixed1 (minV + ((i : ℚ) + 1) * w))
    match binFoldCounts (binAssign minV w binCount) values (List.replicate binCount.toNat 0) with
    | none => none
    | some counts => some ((ranges.zip counts).map (countRecord c))

/-- `parseFloat(String(v)) || d`. -/
def parseFloatValOr (v : JSVal) (d : ℚ) : ℚ :=
  match parseFloatVal v with
  | some q => if q = 0 then d else q
  | none => d

/-- The `log_scale` branch. -/
def logScaleTr (env : JSEnv) (data : List Row) (c : String) : List Row :=
  data.map (fun item =>
    let lg := env.log10 (max (parseFloatValOr (getField item c) 1) 1)
    mkObj (item ++ [(c ++ "_log", .num lg), ("value", .num lg)]))

/-- The `normalize` branch. -/
def normalizeTr (data : List Row) (c : String) : List Row :=
  let values := numValues data c
  let minV := listMinD 0 values
  let maxV := listMaxD 0 values
  let range := maxV - minV
  data.enum.map (fun ip =>
    let x := values.getD ip.1 0
    let nv := if range = 0 then 0 else (x - minV) / range
    mkObj (ip.2 ++ [(c ++ "_normalized", .num nv), ("value", .num nv)]))

/-- The `z_score` branch (`ℚ` division by zero models the `NaN` of an empty
input; no claim examines this branch). -/
def zScoreTr (env : JSEnv) (data : List Row) (c : String) : List Row :=
  let values := numValues data c
  let mean := values.sum / (values.length : ℚ)
  let stdDev := env.sqrtq ((values.map (fun v => (v - mean) ^ 2)).sum / (values.length : ℚ))
  data.enum.map (fun ip =>
    let x := values.getD ip.1 0
    let z := if stdDev = 0 then 0 else (x - mean) / stdDev
    mkObj (ip.2 ++ [(c ++ "_zscore", .num z), ("value", .num z)]))

/-- The `sum` branch. -/
def sumTr (data : List Row) (c : String) : List Row :=
  let s := (numValues data c).sum
  [mkObj [(c, .str "Total"), ("sum", .num s), ("value", .num s), ("count", .num data.length)]]

/-- The `mean` branch (`ℚ` division by zero models the `NaN` of an empty
input). -/
def meanTr (data : List Row) (c : String) : List Row :=
  let values := numValues data c
  let m := values.sum / (values.length : ℚ)
  [mkObj [(c, .str "Average"), ("mean", .num m), ("value", .num m),
    ("count", .num values.length)]]

/-- The `median` branch (the out-of-range reads of an empty input, `NaN` in
JS, are modelled by the `getD` default). -/
def medianTr (data : List Row) (c : String) : List Row :=
  let values := List.insertionSort (· ≤ ·) (numValues data c)
  let m : ℚ :=
    if values.length % 2 = 0 then
      (values.getD (values.length / 2 - 1) 0 + values.getD (values.length / 2) 0) / 2
    else values.getD (values.length / 2) 0
  [mkObj [(c, .str "Median"), ("median", .num m), ("value", .num m),
    ("count", .num values.length)]]

/-- The `min` branch (`Math.min()` of an empty spread is `Infinity` in JS;
modelled by the default of `listMinD`). -/
def minTr (data : List Row) (c : String) : List Row :=
  let m := listMinD 0 (numValues data c)
  [mkObj [(c, .str "Minimum"), ("min", .num m), ("value", .num m),
    ("count", .num data.length)]]

/-- The `max` branch. -/
def maxTr (data : List Row) (c : String) : List Row :=
  let m := listMaxD 0 (numValues data c)
  [mkObj [(c, .str "Maximum"), ("max", .num m), ("value", .num m),
    ("count", .num data.length)]]

/-- The `std` branch. -/
def stdTr (env : JSEnv) (data : List Row) (c : String) : List Row :=
  let values := numValues data c
  let mean := values.sum / (values.length : ℚ)
  let stdDev := env.sqrtq ((values.map (fun v => (v - mean) ^ 2)).sum / (values.length : ℚ))
  [mkObj [(c, .str "Std Dev"), ("std", .num stdDev), ("value", .num stdDev),
    ("count", .num values.length)]]

/-- `applyTransform(data, column, transform)` (the copy of the function the
claims cite).  The result is `Option`al because the `bin:` branch can throw
(see `binAssign`); every other branch is total.  The first guard
`if (!transform || !column) return data` covers a `null`/`undefined`
transform, the empty-string transform and the empty-string column. -/
def applyTransform (env : JSEnv) (data : List Row) (column : String)
    (transform : Option String) : Option (List Row) :=
  match transform with
  | none => some data
  | some t =>
    if t = "" ∨ column = "" then some data
    else if t = "count" then some (countTr data column)
    else if t = "aggregate_sum" then some (aggregateSumTr data column)
    else if t = "aggregate_mean" then some (aggregateMeanTr data column)
    else if t = "percent_of_total" then some (percentOfTotalTr data column)
    else if jsStartsWith t "rank:" then some (rankTr data column (splitColonPart1 t))
    else if jsStartsWith t "rolling_mean:" then
      some (rollingMeanTr data column (splitColonPart1 t))
    else if t = "correlation_matrix" then some data
    else if jsStartsWith t "date_group:" then
      some (dateGroupTr data column (splitColonPart1 t))
    else if jsStartsWith t "bin:" then binTr data column (splitColonPart1 t)
    else if jsStartsWith t "topk:" then some (topkTr data column (splitColonPart1 t))
    else if jsStartsWith t "bottomk:" then some (bottomkTr data column (splitColonPart1 t))
    else if jsStartsWith t "other_group:" then
      some (otherGroupTr data column (splitColonPart1 t))
    else if t = "alphabetical" then some (alphabeticalTr data column)
    else if t = "frequency" then some (frequencyTr data column)
    else if jsStartsWith t "bin:" then binTrShadowed data column (splitColonPart1 t)
    else if t = "log_scale" then some (logScaleTr env data column)
    else if t = "normalize" then some (normalizeTr data column)
    else if t = "z_score" then some (zScoreTr env data column)
    else if t = "sum" then some (sumTr data column)
    else if t = "mean" then some (meanTr data column)
    else if t = "median" then some (medianTr data column)
    else if t = "min" then some (minTr data column)
    else if t = "max" then some (maxTr data column)
    else if t = "std" then some (stdTr env data column)
    else some data

/-- The transform codes some branch of `applyTransform` recognises (every
guard of its dispatch chain). -/
def recognizedTransform (t : String) : Bool :=
  t = "count" || t = "aggregate_sum" || t = "aggregate_mean" || t = "percent_of_total" ||
  jsStartsWith t "rank:" || jsStartsWith t "rolling_mean:" || t = "correlation_matrix" ||
  jsStartsWith t "date_group:" || jsStartsWith t "bin:" || jsStartsWith t "topk:" ||
  jsStartsWith t "bottomk:" || jsStartsWith t "other_group:" || t = "alphabetical" ||
  t = "frequency" || t = "log_scale" || t = "normalize" || t = "z_score" ||
  t = "sum" || t = "mean" || t = "median" || t = "min" || t = "max" || t = "std"

/-! ### Chart specs and the per-chart processors -/

/-- The `VisualizationSpec` fields the embedded processors read.  TS-optional
string fields are `Option String` (`none` = `undefined`). -/
structure VisSpec where
  type : String
  x : Option String
  y : Option String
  series : Option String
  title : Option String
  transform_x : Option String
  transform_y : Option String
  transform : Option String
deriving DecidableEq, Repr

/-- Truthiness of a possibly-`undefined` string field (`undefined` and `""`
are falsy). -/
def optTruthy : Option String → Bool
  | some s => s ≠ ""
  | none => false

/-- `a || b` on possibly-`undefined` string fields. -/
def jsStrOr (a b : Option String) : Option String :=
  if optTruthy a then a else b

/-- `spec.title?.includes('Count')` (`undefined` when there is no title,
hence falsy). -/
def titleHasCount (spec : VisSpec) : Bool :=
  (spec.title.map (fun s => jsIncludes s "Count")).getD false

/-- `item.count || item.sum || item.value || 1`, coerced to a number as the
arithmetic context does. -/
def pieFallbackVal (r : Row) : ℚ :=
  let v := if (getField r "count").truthy then getField r "count"
    else if (getField r "sum").truthy then getField r "sum"
    else if (getField r "value").truthy then getField r "value"
    else .num 1
  (jsToNumber v).getD 0

/-- `processPieChart(data, spec)` (the copy the claims cite).  `Option`al
only because the final fallback branch calls `applyTransform`, whose `bin:`
branch can throw. -/
def processPieChart (env : JSEnv) (data : List Row) (spec : VisSpec) : Option (List Row) :=
  if ¬ optTruthy spec.x ∨ data.isEmpty then some [] else
  let xc := spec.x.getD ""
  let xTransform := jsStrOr spec.transform_x spec.transform
  let yTransform := jsStrOr spec.transform_y spec.transform
  if optTruthy spec.y ∧ (yTransform = some "sum" ∨ yTransform = some "aggregate_sum") then
    let yc := spec.y.getD ""
    let sums := data.foldl
      (fun acc r => bumpSum acc (groupKey r xc) ((parseFloatStripped (getField r yc)).getD 0)) []
    let total := (sums.map Prod.snd).sum
    some (sums.map (fun p =>
      mkObj [("name", .str p.1), ("value", .num p.2),
        ("percentage", .num ((jsRound (p.2 / total * 100) : ℤ) : ℚ))]))
  else if ¬ optTruthy spec.y ∨ yTransform = some "count" ∨ titleHasCount spec then
    let counts := countsOf data xc
    let total : ℚ := ((counts.map Prod.snd).sum : ℕ)
    some (counts.map (fun p =>
      mkObj [("name", .str p.1), ("value", .num p.2),
        ("percentage", .num ((jsRound ((p.2 : ℚ) / total * 100) : ℤ) : ℚ))]))
  else
    match applyTransform env data xc (jsStrOr xTransform spec.transform) with
    | none => none
    | some processed =>
      let total := (processed.map pieFallbackVal).sum
      some (processed.map (fun item =>
        mkObj [("name", if (getField item xc).truthy then getField item xc else .str "Unknown"),
          ("value", .num (pieFallbackVal item)),
          ("percentage", .num ((jsRound (pieFallbackVal item / total * 100) : ℤ) : ℚ))]))

/-- One record emitted by `processWaterfallChart`:
`{ [xColumn]: item[xColumn] || 'Step i+1', [yColumn]: value,
cumulative, start, end, value }`. -/
def waterfallRecord (xc yc : String) (item : Row) (idx : ℕ) (startV value : ℚ) : Row :=
  mkObj [(xc, if (getField item xc).truthy then getField item xc
      else .str ("Step " ++ toString (idx + 1))),
    (yc, .num value), ("cumulative", .num (startV + value)), ("start", .num startV),
    ("end", .num (startV + value)), ("value", .num value)]

/-- The `data.map` of `processWaterfallChart`, threading the running
cumulative sum. -/
def waterfallGo (xc yc : String) : List Row → ℚ → ℕ → List Row
  | [], _, _ => []
  | item :: rest, cum, idx =>
    let value := (parseFloatVal (getField item yc)).getD 0
    waterfallRecord xc yc item idx cum value :: waterfallGo xc yc rest (cum + value) (idx + 1)

/-- `processWaterfallChart(data, spec)`. -/
def processWaterfallChart (data : List Row) (spec : VisSpec) : List Row :=
  if ¬ optTruthy spec.x ∨ ¬ optTruthy spec.y ∨ data.isEmpty then [] else
  waterfallGo (spec.x.getD "") (spec.y.getD "") data 0 0

/-- `processScatterChart(data, spec)` up to and including its text-column
guard.  The body past the guard (bubble sizing with `Math.PI`/`Math.sqrt`,
the `date_group`+`sum` aggregation, the plain point mapping) is abstracted
as the continuation `rest`: the claims about this processor concern only the
guards, and the theorems quantify over every continuation. -/
def processScatterChart (rest : List Row → VisSpec → Option (List Row))
    (data : List Row) (spec : VisSpec) : Option (List Row) :=
  if ¬ optTruthy spec.x ∨ ¬ optTruthy spec.y ∨ data.isEmpty then some [] else
  let xc := spec.x.getD ""
  let yc := spec.y.getD ""
  let isXTextColumn := jsIncludes xc "description" || jsIncludes xc "name" || jsIncludes xc "label"
  let isYTextColumn := jsIncludes yc "description" || jsIncludes yc "name" || jsIncludes yc "label"
  if isXTextColumn || isYTextColumn then some []
  else rest data spec

/-- `Object.keys` of a row: property names in first-occurrence order. -/
def objKeysAux : List String → List String → List String
  | [], _ => []
  | a :: l, seen => if a ∈ seen then objKeysAux l seen else a :: objKeysAux l (a :: seen)

/-- `Object.keys(item)`. -/
def objKeys (r : Row) : List String := objKeysAux (r.map Prod.fst) []

/-- The nested `for i / for j` index pairs of the correlation-matrix loop. -/
def allPairs (n : ℕ) : List (ℕ × ℕ) :=
  (List.range n).flatMap (fun i => (List.range n).map (fun j => (i, j)))

/-- The correlation-matrix loop body: self-pairs get coefficient `1`, every
other pair consumes one `Math.random()` draw (`rand k`, `k` the number of
draws so far) and gets `rand k * 0.8 - 0.4`; `value` is the coefficient
rounded to two decimals.  (The source also computes `values1`, `values2`,
`mean1`, `mean2` — dead locals it never reads.) -/
def corrGo (rand : ℕ → ℚ) (cols : List String) : List (ℕ × ℕ) → ℕ → List Row
  | [], _ => []
  | ij :: pairs, k =>
    let coeff : ℚ := if ij.1 = ij.2 then 1 else rand k * (4 / 5) - 2 / 5
    let k2 := if ij.1 = ij.2 then k else k + 1
    mkObj [("x", .str (cols.getD ij.1 "")), ("y", .str (cols.getD ij.2 "")),
        ("value", .num ((jsRound (coeff * 100) : ℤ) / 100)), ("count", .num 1)] ::
      corrGo rand cols pairs k2

/-- `split('__')` (a multi-character separator, used by the regular heatmap
path). -/
def splitOnSeq (sep : List Char) (cs : List Char) : List (List Char) :=
  if h : sep ≠ [] ∧ cs ≠ [] ∧ sep.isPrefixOf cs then
    [] :: splitOnSeq sep (cs.drop sep.length)
  else
    match cs with
    | [] => [[]]
    | c :: rest =>
      match splitOnSeq sep rest with
      | [] => [[c]]
      | p :: ps => (c :: p) :: ps
termination_by cs.length
decreasing_by
  · have h1 : 0 < sep.length := List.length_pos.mpr h.1
    have h2 : 0 < cs.length := List.length_pos.mpr h.2.1
    simp only [List.length_drop]
    omega
  · simp only [List.length_cons]
    omega

/-- `processHeatmapChart(data, spec)`; `rand` is the `Math.random()`
stream. -/
def processHeatmapChart (rand : ℕ → ℚ) (data : List Row) (spec : VisSpec) : List Row :=
  if ¬ optTruthy spec.x ∨ ¬ optTruthy spec.y ∨ data.isEmpty then [] else
  if spec.transform_x = some "correlation_matrix" ∨ spec.transform_y = some "correlation_matrix"
  then
    let first := data.headD []
    let numericColumns :=
      ((objKeys first).filter (fun col => (parseFloatVal (getField first col)).isSome)).take 10
    corrGo rand numericColumns (allPairs numericColumns.length) 0
  else
    let xc := spec.x.getD ""
    let yc := spec.y.getD ""
    let grouped := foldCounts (data.map (fun r =>
      jsToString (if (getField r xc).truthy then getField r xc else .str "Unknown") ++ "__" ++
        jsToString (if (getField r yc).truthy then getField r yc else .str "Unknown")))
    grouped.map (fun p =>
      let parts := (splitOnSeq ['_', '_'] p.1.toList).map String.mk
      let xv : JSVal := .str (parts.getD 0 "")
      let yv : JSVal := match parts.drop 1 with | [] => .undef | q :: _ => .str q
      mkObj [("x", xv), ("y", yv), ("value", .num p.2), ("count", .num p.2)])

/-! ### The treemap layout (`treemap-chart.tsx`, `layoutTreemap`) -/

/-- An input node of the layout (`{ name, value }`). -/
structure TNode where
  name : String
  value : ℚ
deriving DecidableEq, Repr

/-- A node with its proportional area. -/
structure TNodeA extends TNode where
  area : ℚ
deriving DecidableEq, Repr

/-- A laid-out rectangle. -/
structure TRect extends TNodeA where
  x : ℚ
  y : ℚ
  width : ℚ
  height : ℚ
deriving DecidableEq, Repr

/-- The value-descending node sort `(a, b) => b.value - a.value`. -/
def valueDesc (a b : TNode) : Prop := b.value ≤ a.value

instance : DecidableRel valueDesc := fun a b => inferInstanceAs (Decidable (_ ≤ _))

/-- The worst width/height aspect ratio of a trial row configuration. -/
def worstAspect (testNodes : List TNodeA) (testRowArea testRowHeight width : ℚ) : ℚ :=
  testNodes.foldl (fun worst node =>
    let nodeWidth := (node.area / testRowArea) * width
    max worst (max (nodeWidth / testRowHeight) (testRowHeight / nodeWidth))) 0

/-- The `for (let i = 1; i <= Math.min(6, remainingNodes.length); i++)`
search: the best-aspect prefix that fits the available height, with the
`rowNodes.length === 0` fallback taking a single node.  Returns the number
of nodes taken, the row area and the optimal row height.  (The
`Math.sqrt`-based initial `optimalRowHeight` of the source is dead: it is
always overwritten before use, either by a kept configuration or by the
fallback.) -/
def chooseRow (remaining : List TNodeA) (width availableHeight : ℚ) : ℕ × ℚ × ℚ :=
  let best := (List.range (min 6 remaining.length)).foldl
    (fun acc i' =>
      let i := i' + 1
      let testNodes := remaining.take i
      let testRowArea := (testNodes.map TNodeA.area).sum
      let testRowHeight := testRowArea / width
      let worst := worstAspect testNodes testRowArea testRowHeight width
      match acc with
      | some (j, a, h, bestAspect) =>
        if worst < bestAspect ∧ testRowHeight ≤ availableHeight then
          some (i, testRowArea, testRowHeight, worst)
        else some (j, a, h, bestAspect)
      | none =>
        if testRowHeight ≤ availableHeight then some (i, testRowArea, testRowHeight, worst)
        else none)
    (none : Option (ℕ × ℚ × ℚ × ℚ))
  match best with
  | some (i, a, h, _) => (i, a, h)
  | none =>
    let headArea := match remaining with | [] => 0 | n :: _ => n.area
    (1, headArea, min (headArea / width) availableHeight)

/-- Lay the chosen row out left to right (`n` is the row's node count, used
by the `rowArea > 0 ? … : width / rowNodes.length` fallback). -/
def layoutRow (n : ℕ) (rowArea width currentY actualRowHeight : ℚ) :
    List TNodeA → ℚ → List TRect
  | [], _ => []
  | node :: rest, currentX =>
    let proportionalWidth := if 0 < rowArea then (node.area / rowArea) * width
      else width / (n : ℚ)
    ⟨node, currentX, currentY, max 10 proportionalWidth, max 10 actualRowHeight⟩ ::
      layoutRow n rowArea width currentY actualRowHeight rest (currentX + proportionalWidth)

/-- The `while (remainingNodes.length > 0 && currentY < height)` loop.  The
fuel is the number of remaining nodes: each pass consumes at least one node
(`chooseRow` returns a count ≥ 1, see `chooseRow_fst_pos`), so fuel
`remaining.length` runs the loop to completion exactly as the source
does. -/
def layoutLoop (width height : ℚ) : ℕ → List TNodeA → ℚ → List TRect
  | 0, _, _ => []
  | _, [], _ => []
  | fuel + 1, node :: restNodes, currentY =>
    if currentY < height then
      let remaining := node :: restNodes
      let availableHeight := height - currentY
      let cr := chooseRow remaining width availableHeight
      let actualRowHeight := min cr.2.2 availableHeight
      layoutRow (remaining.take cr.1).length cr.2.1 width currentY actualRowHeight
          (remaining.take cr.1) 0 ++
        layoutLoop width height fuel (remaining.drop cr.1) (currentY + actualRowHeight)
    else []

/-- `layoutTreemap(nodes, width, height)`. -/
def layoutTreemap (nodes : List TNode) (width height : ℚ) : List TRect :=
  if nodes.isEmpty then [] else
  let totalValue := (nodes.map TNode.value).sum
  if totalValue = 0 then [] else
  let totalArea := width * height
  let sortedNodes := List.insertionSort valueDesc nodes
  let nodesWithArea := sortedNodes.map (fun n => TNodeA.mk n ((n.value / totalValue) * totalArea))
  layoutLoop width height nodesWithArea.length nodesWithArea 0

/-- A concrete environment for witnesses (no claim's control path reaches
`log10`/`sqrt`). -/
def envTriv : JSEnv := ⟨fun _ => 0, fun _ => 0⟩

/-- The example's input rows. -/
def pieRows : List Row :=
  [[("status", JSVal.str "Done")], [("status", JSVal.str "Done")],
    [("status", JSVal.str "Open")]]

/-- The example's chart spec `{type:"pie", x:"status", transform_y:"count"}`. -/
def pieSpec : VisSpec :=
  ⟨"pie", some "status", none, none, none, none, some "count", none⟩


theorem getField_setField_self (r : Row) (k : String) (v : JSVal) :
    getField (setField r k v) k = v := by
  induction r with
  | nil => simp [setField, getField]
  | cons p rest ih =>
    obtain ⟨k', v'⟩ := p
    by_cases h : k' = k
    · simp [setField, h, getField]
    · simp only [setField, if_neg h]
      simpa [getField, h] using ih

theorem getField_setField_other (r : Row) (k k' : String) (v : JSVal) (h : k ≠ k') :
    getField (setField r k' v) k = getField r k := by
  induction r with
  | nil => simp [setField, getField, Ne.symm h]
  | cons p rest ih =>
    obtain ⟨k₀, v₀⟩ := p
    by_cases h0 : k₀ = k'
    · subst h0
      simp [setField, getField, Ne.symm h]
    · simp only [setField, if_neg h0]
      by_cases hk : k₀ = k
      · subst hk
        simp [getField]
      · simpa [getField, hk] using ih

theorem mkObj_append_single (l : List (String × JSVal)) (k : String) (v : JSVal) :
    mkObj (l ++ [(k, v)]) = setField (mkObj l) k v := by
  simp [mkObj, List.foldl_append]

theorem qFloor_eq_floor (q : ℚ) : qFloor q = ⌊q⌋ := by
  rw [qFloor, Rat.floor_def', ← Rat.floor_def]

theorem jsRound_eq_floor (q : ℚ) : jsRound q = ⌊q + 1 / 2⌋ := by
  rw [jsRound, qFloor_eq_floor]

theorem bumpKey_sum (acc : List (String × ℕ)) (k : String) :
    ((bumpKey acc k).map Prod.snd).sum = (acc.map Prod.snd).sum + 1 := by
  induction acc with
  | nil => simp [bumpKey]
  | cons p rest ih =>
    obtain ⟨k', n⟩ := p
    by_cases h : k' = k
    · simp [bumpKey, h]
      ring
    · simp [bumpKey, h, ih]
      ring

theorem foldCounts_sum_aux (keys : List String) (acc : List (String × ℕ)) :
    ((keys.foldl bumpKey acc).map Prod.snd).sum = (acc.map Prod.snd).sum + keys.length := by
  induction keys generalizing acc with
  | nil => simp
  | cons k rest ih =>
    simp only [List.foldl_cons, List.length_cons, ih, bumpKey_sum]
    ring

/-- The counts accumulated over a key list sum to the number of keys: every
key bumps exactly one bucket. -/
theorem foldCounts_sum (keys : List String) :
    ((foldCounts keys).map Prod.snd).sum = keys.length := by
  simpa [foldCounts] using foldCounts_sum_aux keys []

theorem bumpKey_keys (acc : List (String × ℕ)) (k : String) :
    (bumpKey acc k).map Prod.fst =
      if k ∈ acc.map Prod.fst then acc.map Prod.fst else acc.map Prod.fst ++ [k] := by
  induction acc with
  | nil => simp [bumpKey]
  | cons p rest ih =>
    obtain ⟨k', n⟩ := p
    by_cases h : k' = k
    · simp [bumpKey, h]
    · simp only [bumpKey, if_neg h, List.map_cons, List.mem_cons]
      rw [ih]
      by_cases hm : k ∈ rest.map Prod.fst
      · simp [hm, Ne.symm h]
      · simp [hm, Ne.symm h]

theorem bumpKey_length (acc : List (String × ℕ)) (k : String) :
    (bumpKey acc k).length =
      if k ∈ acc.map Prod.fst then acc.length else acc.length + 1 := by
  have h := congrArg List.length (bumpKey_keys acc k)
  simp only [List.length_map] at h
  rw [h]
  by_cases hm : k ∈ acc.map Prod.fst <;> simp [hm]

theorem foldCounts_keys_toFinset_aux (keys : List String) (acc : List (String × ℕ)) :
    ((keys.foldl bumpKey acc).map Prod.fst).toFinset =
      (acc.map Prod.fst).toFinset ∪ keys.toFinset := by
  induction keys generalizing acc with
  | nil => simp
  | cons k rest ih =>
    simp only [List.foldl_cons, ih, bumpKey_keys]
    by_cases hm : k ∈ acc.map Prod.fst
    · simp only [if_pos hm, List.toFinset_cons]
      ext a
      simp only [Finset.mem_union, Finset.mem_insert, List.mem_toFinset]
      constructor
      · rintro (h | h)
        · exact Or.inl h
        · exact Or.inr (Or.inr h)
      · rintro (h | h | h)
        · exact Or.inl h
        · exact Or.inl (h ▸ hm)
        · exact Or.inr h
    · simp only [if_neg hm, List.toFinset_append, List.toFinset_cons]
      ext a
      simp only [Finset.mem_union, List.mem_toFinset, List.toFinset_cons, Finset.mem_insert,
        List.toFinset_nil, Finset.mem_singleton, Finset.not_mem_empty, or_false]
      tauto

theorem foldCounts_nodup_aux (keys : List String) (acc : List (String × ℕ))
    (h : (acc.map Prod.fst).Nodup) : ((keys.foldl bumpKey acc).map Prod.fst).Nodup := by
  induction keys generalizing acc with
  | nil => simpa using h
  | cons k rest ih =>
    simp only [List.foldl_cons]
    refine ih _ ?_
    rw [bumpKey_keys]
    by_cases hm : k ∈ acc.map Prod.fst
    · simpa [hm] using h
    · simp only [if_neg hm]
      exact List.Nodup.append h (List.nodup_singleton k) (by simpa using hm)

/-- The accumulated counts have pairwise distinct keys, and exactly the
distinct keys of the input: their number is the number of distinct keys. -/
theorem foldCounts_length (keys : List String) :
    (foldCounts keys).length = keys.toFinset.card := by
  have hn : ((foldCounts keys).map Prod.fst).Nodup := by
    simpa [foldCounts] using foldCounts_nodup_aux keys [] (by simp)
  have hf : ((foldCounts keys).map Prod.fst).toFinset = keys.toFinset := by
    simpa [foldCounts] using foldCounts_keys_toFinset_aux keys []
  calc (foldCounts keys).length
      = ((foldCounts keys).map Prod.fst).length := by simp
    _ = ((foldCounts keys).map Prod.fst).toFinset.card := (List.toFinset_card_of_nodup hn).symm
    _ = keys.toFinset.card := by rw [hf]

/-! ### Field lemmas for the emitted records -/

theorem getField_countRecord_count (c k : String) (n : ℕ) :
    getField (countRecord c (k, n)) "count" = .num n := by
  unfold countRecord mkObj
  simp only [List.foldl_cons, List.foldl_nil]
  rw [getField_setField_other _ _ _ _ (by decide), getField_setField_self]

theorem getNum_countRecord_count (c k : String) (n : ℕ) :
    getNum (countRecord c (k, n)) "count" = (n : ℚ) := by
  unfold getNum
  rw [getField_countRecord_count]

theorem getField_countRecord_key (c k : String) (n : ℕ) (h1 : c ≠ "count")
    (h2 : c ≠ "value") : getField (countRecord c (k, n)) c = .str k := by
  unfold countRecord mkObj
  simp only [List.foldl_cons, List.foldl_nil]
  rw [getField_setField_other _ _ _ _ h2, getField_setField_other _ _ _ _ h1,
    getField_setField_self]

theorem getField_binRecord_count (c range : String) (n : ℕ) :
    getField (mkObj [(c, .str range), ("count", .num n)]) "count" = .num n := by
  unfold mkObj
  simp only [List.foldl_cons, List.foldl_nil]
  rw [getField_setField_self]

/-! ### C10: null and unrecognized transforms act as the identity -/

/-- C10: `applyTransform` with a `null` transform, or with a transform string
matching none of the recognised transform codes, returns the input row array
unchanged — same records, same order. -/
theorem applyTransform_unrecognized_id (env : JSEnv) (data : List Row) (c : String)
    (t : String) (h : recognizedTransform t = false) :
    applyTransform env data c none = some data ∧
      applyTransform env data c (some t) = some data := by
  refine ⟨rfl, ?_⟩
  simp only [recognizedTransform, Bool.or_eq_false_iff, decide_eq_false_iff_not] at h
  obtain ⟨⟨⟨⟨⟨⟨⟨⟨⟨⟨⟨⟨⟨⟨⟨⟨⟨⟨⟨⟨⟨⟨h1, h2⟩, h3⟩, h4⟩, h5⟩, h6⟩, h7⟩, h8⟩, h9⟩, h10⟩, h11⟩,
    h12⟩, h13⟩, h14⟩, h15⟩, h16⟩, h17⟩, h18⟩, h19⟩, h20⟩, h21⟩, h22⟩, h23⟩ := h
  by_cases h0 : t = "" ∨ c = ""
  · simp [applyTransform, h0]
  · simp [applyTransform, h0, h1, h2, h3, h4, h5, h6, h7, h8, h9, h10, h11, h12, h13,
      h14, h15, h16, h17, h18, h19, h20, h21, h22, h23]

/-- Witness for C10 at a concrete unrecognised transform. -/
theorem applyTransform_unrecognized_id_witness :
    applyTransform envTriv [[("s", JSVal.str "a")]] "s" none =
        some [[("s", JSVal.str "a")]] ∧
      applyTransform envTriv [[("s", JSVal.str "a")]] "s" (some "shuffle") =
        some [[("s", JSVal.str "a")]] :=
  applyTransform_unrecognized_id envTriv [[("s", JSVal.str "a")]] "s" "shuffle" (by decide)

/-! ### C1: the `count` transform's counts sum to the row count -/

/-- C1: for every input row array and column, the `count` transform groups
every row under exactly one key (the falsy-valued rows under the default key
`"Unknown"`), and the `count` fields of the emitted records sum to the
number of input rows. -/
theorem applyTransform_count_sum (env : JSEnv) (data : List Row) (c : String)
    (hc : c ≠ "") :
    applyTransform env data c (some "count") = some (countTr data c) ∧
      ((countTr data c).map (fun r => getNum r "count")).sum = (data.length : ℚ) ∧
      ∀ r ∈ data, (getField r c).truthy = false → groupKey r c = "Unknown" := by
  refine ⟨?_, ?_, ?_⟩
  · simp [applyTransform, hc]
  · unfold countTr
    rw [List.map_map]
    have h1 : ((fun r => getNum r "count") ∘ countRecord c)
        = fun p : String × ℕ => ((p.2 : ℕ) : ℚ) := by
      funext p
      obtain ⟨k, n⟩ := p
      exact getNum_countRecord_count c k n
    rw [h1]
    have h2 : (countsOf data c).map (fun p : String × ℕ => ((p.2 : ℕ) : ℚ))
        = ((countsOf data c).map Prod.snd).map (fun n : ℕ => (n : ℚ)) := by
      rw [List.map_map]
      rfl
    rw [h2, ← Nat.cast_list_sum]
    rw [show (countsOf data c) = foldCounts (data.map (fun r => groupKey r c)) from rfl,
      foldCounts_sum]
    simp
  · intro r _ hf
    simp [groupKey, hf]

/-- Witness for C1 on a two-row dataset. -/
theorem applyTransform_count_sum_witness :
    applyTransform envTriv [[("s", JSVal.str "a")], []] "s" (some "count") =
        some (countTr [[("s", JSVal.str "a")], []] "s") ∧
      ((countTr [[("s", JSVal.str "a")], []] "s").map (fun r => getNum r "count")).sum =
        (([[("s", JSVal.str "a")], []] : List Row).length : ℚ) ∧
      ∀ r ∈ ([[("s", JSVal.str "a")], []] : List Row), (getField r "s").truthy = false →
        groupKey r "s" = "Unknown" :=
  applyTransform_count_sum envTriv [[("s", JSVal.str "a")], []] "s" (by decide)

/-! ### C4: the end-to-end pie example -/

/-- C4: on rows `[{status:"Done"},{status:"Done"},{status:"Open"}]` with spec
`{type:"pie", x:"status", transform_y:"count"}` the pie processor returns
exactly `[{name:"Done",value:2,percentage:67},{name:"Open",value:1,
percentage:33}]`, percentages rounded to the nearest integer. -/
theorem processPieChart_example :
    processPieChart envTriv pieRows pieSpec =
      some [[("name", JSVal.str "Done"), ("value", JSVal.num 2),
          ("percentage", JSVal.num 67)],
        [("name", JSVal.str "Open"), ("value", JSVal.num 1),
          ("percentage", JSVal.num 33)]] := by
  simp [processPieChart, pieRows, pieSpec, optTruthy, jsStrOr, titleHasCount, countsOf,
    foldCounts, groupKey, getField, jsToString, bumpKey, mkObj, setField, JSVal.truthy,
    jsRound, qFloor_eq_floor]
  norm_num

/-! ### C5: waterfall cumulative sums -/

theorem getField_waterfallRecord_start (xc yc : String) (item : Row) (idx : ℕ)
    (startV value : ℚ) :
    getField (waterfallRecord xc yc item idx startV value) "start" = .num startV := by
  unfold waterfallRecord mkObj
  simp only [List.foldl_cons, List.foldl_nil]
  rw [getField_setField_other _ _ _ _ (by decide), getField_setField_other _ _ _ _ (by decide),
    getField_setField_self]

theorem getField_waterfallRecord_end (xc yc : String) (item : Row) (idx : ℕ)
    (startV value : ℚ) :
    getField (waterfallRecord xc yc item idx startV value) "end" = .num (startV + value) := by
  unfold waterfallRecord mkObj
  simp only [List.foldl_cons, List.foldl_nil]
  rw [getField_setField_other _ _ _ _ (by decide), getField_setField_self]

theorem getField_waterfallRecord_cumulative (xc yc : String) (item : Row) (idx : ℕ)
    (startV value : ℚ) :
    getField (waterfallRecord xc yc item idx startV value) "cumulative" =
      .num (startV + value) := by
  unfold waterfallRecord mkObj
  simp only [List.foldl_cons, List.foldl_nil]
  rw [getField_setField_other _ _ _ _ (by decide), getField_setField_other _ _ _ _ (by decide),
    getField_setField_other _ _ _ _ (by decide), getField_setField_self]

theorem waterfallGo_length (xc yc : String) (data : List Row) (cum : ℚ) (idx : ℕ) :
    (waterfallGo xc yc data cum idx).length = data.length := by
  induction data generalizing cum idx with
  | nil => simp [waterfallGo]
  | cons item rest ih => simp [waterfallGo, ih]

theorem list_take_succ_sum (l : List ℚ) (i : ℕ) (h : i < l.length) :
    (l.take (i + 1)).sum = (l.take i).sum + l.getD i 0 := by
  induction l generalizing i with
  | nil => simp at h
  | cons a rest ih =>
    match i with
    | 0 => simp
    | j + 1 =>
      simp only [List.take_succ_cons, List.sum_cons, List.getD_cons_succ]
      rw [ih j (by simpa using h)]
      ring

theorem waterfallGo_fields (xc yc : String) (data : List Row) (cum : ℚ) (idx : ℕ) :
    ∀ i (hi : i < (waterfallGo xc yc data cum idx).length),
      getField ((waterfallGo xc yc data cum idx).get ⟨i, hi⟩) "start" =
        .num (cum + ((data.map (fun r => (parseFloatVal (getField r yc)).getD 0)).take i).sum) ∧
      getField ((waterfallGo xc yc data cum idx).get ⟨i, hi⟩) "end" =
        .num (cum +
          ((data.map (fun r => (parseFloatVal (getField r yc)).getD 0)).take (i + 1)).sum) ∧
      getField ((waterfallGo xc yc data cum idx).get ⟨i, hi⟩) "cumulative" =
        .num (cum +
          ((data.map (fun r => (parseFloatVal (getField r yc)).getD 0)).take (i + 1)).sum) := by
  induction data generalizing cum idx with
  | nil => intro i hi; simp [waterfallGo] at hi
  | cons item rest ih =>
    intro i hi
    match i with
    | 0 =>
      simp only [waterfallGo, List.get, List.map_cons, List.take_succ_cons, List.take_zero,
        List.sum_cons, List.sum_nil]
      refine ⟨?_, ?_, ?_⟩
      · rw [getField_waterfallRecord_start]
        norm_num
      · rw [getField_waterfallRecord_end]
        norm_num
      · rw [getField_waterfallRecord_cumulative]
        norm_num
    | j + 1 =>
      have hj : j < (waterfallGo xc yc rest
          (cum + (parseFloatVal (getField item yc)).getD 0) (idx + 1)).length := by
        simp only [waterfallGo, List.length_cons] at hi
        omega
      have h3 := ih (cum + (parseFloatVal (getField item yc)).getD 0) (idx + 1) j hj
      simp only [waterfallGo, List.get, List.map_cons, List.take_succ_cons, List.sum_cons]
      refine ⟨?_, ?_, ?_⟩
      · rw [h3.1]
        ring_nf
      · rw [h3.2.1]
        ring_nf
      · rw [h3.2.2]
        ring_nf

/-- C5: with truthy `x`/`y` fields and nonempty data, the waterfall
processor emits one record per input row, in order; record `i` has
`start = Σ_{j<i} yⱼ`, `end = cumulative = start + yᵢ` (the coerced y-values),
and the last record's `cumulative` is the sum of all coerced y-values. -/
theorem processWaterfallChart_cumulative (data : List Row) (spec : VisSpec)
    (hx : optTruthy spec.x = true) (hy : optTruthy spec.y = true) (hd : data ≠ []) :
    (processWaterfallChart data spec).length = data.length ∧
      (∀ i (hi : i < (processWaterfallChart data spec).length),
        getField ((processWaterfallChart data spec).get ⟨i, hi⟩) "start" =
          .num (((data.map
            (fun r => (parseFloatVal (getField r (spec.y.getD ""))).getD 0)).take i).sum) ∧
        getField ((processWaterfallChart data spec).get ⟨i, hi⟩) "end" =
          .num (((data.map
              (fun r => (parseFloatVal (getField r (spec.y.getD ""))).getD 0)).take i).sum +
            (data.map (fun r => (parseFloatVal (getField r (spec.y.getD ""))).getD 0)).getD i 0)) ∧
      ((processWaterfallChart data spec).getLast?).map (fun r => getField r "cumulative") =
        some (.num ((data.map
          (fun r => (parseFloatVal (getField r (spec.y.getD ""))).getD 0)).sum)) := by
  have hout : processWaterfallChart data spec =
      waterfallGo (spec.x.getD "") (spec.y.getD "") data 0 0 := by
    unfold processWaterfallChart
    rw [if_neg]
    simp [hx, hy, hd]
  rw [hout]
  have hlen2 : (waterfallGo (spec.x.getD "") (spec.y.getD "") data 0 0).length = data.length :=
    waterfallGo_length _ _ _ _ _
  refine ⟨hlen2, ?_, ?_⟩
  · intro i hi
    have h3 := waterfallGo_fields (spec.x.getD "") (spec.y.getD "") data 0 0 i hi
    have hiv : i < (data.map
        (fun r => (parseFloatVal (getField r (spec.y.getD ""))).getD 0)).length := by
      rw [hlen2] at hi
      simpa using hi
    constructor
    · rw [h3.1, zero_add]
    · rw [h3.2.1, zero_add, list_take_succ_sum _ i hiv]
  · have hpos : 0 < (waterfallGo (spec.x.getD "") (spec.y.getD "") data 0 0).length := by
      rw [hlen2]
      exact List.length_pos.mpr hd
    have hi' : (waterfallGo (spec.x.getD "") (spec.y.getD "") data 0 0).length - 1 <
        (waterfallGo (spec.x.getD "") (spec.y.getD "") data 0 0).length := by
      omega
    have h3 := waterfallGo_fields (spec.x.getD "") (spec.y.getD "") data 0 0 _ hi'
    rw [List.getLast?_eq_getElem?, List.getElem?_eq_getElem hi']
    have hget : (waterfallGo (spec.x.getD "") (spec.y.getD "") data 0
          0)[(waterfallGo (spec.x.getD "") (spec.y.getD "") data 0 0).length - 1] =
        (waterfallGo (spec.x.getD "") (spec.y.getD "") data 0 0).get
          ⟨(waterfallGo (spec.x.getD "") (spec.y.getD "") data 0 0).length - 1, hi'⟩ := rfl
    rw [Option.map_some', hget, h3.2.2, zero_add]
    congr 2
    rw [List.take_of_length_le]
    rw [List.length_map, ← hlen2]
    omega

/-- Witness for C5 on a two-row dataset. -/
theorem processWaterfallChart_cumulative_witness :
    (processWaterfallChart [[("m", JSVal.str "a"), ("v", JSVal.num 3)],
        [("m", JSVal.str "b"), ("v", JSVal.num 4)]]
      ⟨"waterfall", some "m", some "v", none, none, none, none, none⟩).length =
      ([[("m", JSVal.str "a"), ("v", JSVal.num 3)],
        [("m", JSVal.str "b"), ("v", JSVal.num 4)]] : List Row).length ∧
      (∀ i (hi : i < (processWaterfallChart [[("m", JSVal.str "a"), ("v", JSVal.num 3)],
          [("m", JSVal.str "b"), ("v", JSVal.num 4)]]
        ⟨"waterfall", some "m", some "v", none, none, none, none, none⟩).length),
        getField ((processWaterfallChart [[("m", JSVal.str "a"), ("v", JSVal.num 3)],
            [("m", JSVal.str "b"), ("v", JSVal.num 4)]]
          ⟨"waterfall", some "m", some "v", none, none, none, none, none⟩).get ⟨i, hi⟩) "start" =
          .num ((([[("m", JSVal.str "a"), ("v", JSVal.num 3)],
              [("m", JSVal.str "b"), ("v", JSVal.num 4)]] : List Row).map
            (fun r => (parseFloatVal (getField r
              ((⟨"waterfall", some "m", some "v", none, none, none, none, none⟩ :
                VisSpec).y.getD ""))).getD 0)).take i).sum ∧
        getField ((processWaterfallChart [[("m", JSVal.str "a"), ("v", JSVal.num 3)],
            [("m", JSVal.str "b"), ("v", JSVal.num 4)]]
          ⟨"waterfall", some "m", some "v", none, none, none, none, none⟩).get ⟨i, hi⟩) "end" =
          .num (((([[("m", JSVal.str "a"), ("v", JSVal.num 3)],
              [("m", JSVal.str "b"), ("v", JSVal.num 4)]] : List Row).map
            (fun r => (parseFloatVal (getField r
              ((⟨"waterfall", some "m", some "v", none, none, none, none, none⟩ :
                VisSpec).y.getD ""))).getD 0)).take i).sum +
            (([[("m", JSVal.str "a"), ("v", JSVal.num 3)],
              [("m", JSVal.str "b"), ("v", JSVal.num 4)]] : List Row).map
            (fun r => (parseFloatVal (getField r
              ((⟨"waterfall", some "m", some "v", none, none, none, none, none⟩ :
                VisSpec).y.getD ""))).getD 0)).getD i 0)) ∧
      ((processWaterfallChart [[("m", JSVal.str "a"), ("v", JSVal.num 3)],
          [("m", JSVal.str "b"), ("v", JSVal.num 4)]]
        ⟨"waterfall", some "m", some "v", none, none, none, none, none⟩).getLast?).map
          (fun r => getField r "cumulative") =
        some (.num ((([[("m", JSVal.str "a"), ("v", JSVal.num 3)],
            [("m", JSVal.str "b"), ("v", JSVal.num 4)]] : List Row).map
          (fun r => (parseFloatVal (getField r
            ((⟨"waterfall", some "m", some "v", none, none, none, none, none⟩ :
              VisSpec).y.getD ""))).getD 0)).sum)) :=
  processWaterfallChart_cumulative
    [[("m", JSVal.str "a"), ("v", JSVal.num 3)], [("m", JSVal.str "b"), ("v", JSVal.num 4)]]
    ⟨"waterfall", some "m", some "v", none, none, none, none, none⟩
    (by decide) (by decide) (by decide)

/-! ### C6: the scatter processor's text-column guard -/

/-- C6: whenever the x or y field name contains `"description"`, `"name"` or
`"label"`, the scatter processor returns an empty array without ever
reaching its point-building body (it cannot throw: the guard returns first,
whatever the continuation `rest` would do). -/
theorem processScatterChart_text_guard (rest : List Row → VisSpec → Option (List Row))
    (data : List Row) (spec : VisSpec) (xc yc : String)
    (hx : spec.x = some xc) (hy : spec.y = some yc)
    (h : (jsIncludes xc "description" || jsIncludes xc "name" || jsIncludes xc "label" ||
        jsIncludes yc "description" || jsIncludes yc "name" || jsIncludes yc "label") = true) :
    processScatterChart rest data spec = some [] := by
  unfold processScatterChart
  by_cases h0 : ¬ optTruthy spec.x = true ∨ ¬ optTruthy spec.y = true ∨ data.isEmpty = true
  · rw [if_pos h0]
  · rw [if_neg h0]
    simp only [hx, hy, Option.getD_some]
    rw [if_pos]
    simp only [Bool.or_eq_true] at h ⊢
    tauto

/-- Witness for C6: `x = "name"` forces an empty result even with a
continuation that would crash. -/
theorem processScatterChart_text_guard_witness :
    processScatterChart (fun _ _ => none) [[("name", JSVal.num 1), ("val", JSVal.num 2)]]
      ⟨"scatter", some "name", some "val", none, none, none, none, none⟩ = some [] :=
  processScatterChart_text_guard (fun _ _ => none)
    [[("name", JSVal.num 1), ("val", JSVal.num 2)]]
    ⟨"scatter", some "name", some "val", none, none, none, none, none⟩
    "name" "val" rfl rfl (by decide)

/-! ### Dispatch helpers for the parameterised transforms -/

theorem splitOnChar_append (sep : Char) (pre rest : List Char) (h : ∀ ch ∈ pre, ch ≠ sep) :
    splitOnChar sep (pre ++ sep :: rest) = pre :: splitOnChar sep rest := by
  induction pre with
  | nil => simp [splitOnChar]
  | cons c cs ih =>
    have hc : c ≠ sep := h c (by simp)
    rw [List.cons_append]
    simp only [splitOnChar, if_neg hc]
    rw [ih (fun ch hm => h ch (by simp [hm]))]

theorem splitOnChar_no_sep (sep : Char) (cs : List Char) (h : ∀ ch ∈ cs, ch ≠ sep) :
    splitOnChar sep cs = [cs] := by
  induction cs with
  | nil => simp [splitOnChar]
  | cons c rest ih =>
    have hc : c ≠ sep := h c (by simp)
    simp only [splitOnChar, if_neg hc]
    rw [ih (fun ch hm => h ch (by simp [hm]))]

/-- `('tag:' ++ s).split(':')[1] = s` when neither the tag nor `s` contains a
colon. -/
theorem splitColonPart1_tag (pre : List Char) (s : String) (hpre : ∀ ch ∈ pre, ch ≠ ':')
    (hs : ∀ ch ∈ s.toList, ch ≠ ':') (t : String) (ht : t.toList = pre ++ ':' :: s.toList) :
    splitColonPart1 t = s := by
  unfold splitColonPart1
  rw [ht, splitOnChar_append _ _ _ hpre, splitOnChar_no_sep _ _ hs]
  rfl

/-- Dispatch of `applyTransform` on a `topk:<s>` transform string. -/
theorem applyTransform_topk_eq (env : JSEnv) (data : List Row) (c : String) (s : String)
    (hc : c ≠ "") :
    applyTransform env data c (some ("topk:" ++ s)) =
      some (topkTr data c (splitColonPart1 ("topk:" ++ s))) := by
  have htl : ("topk:" ++ s).toList = 't' :: 'o' :: 'p' :: 'k' :: ':' :: s.toList := rfl
  have hne : ∀ u : String, u.toList.head? ≠ some 't' → ("topk:" ++ s) ≠ u := by
    intro u hu hEq
    apply hu
    rw [← hEq, htl]
    rfl
  have hpw : ∀ p : String, p.toList.head? ≠ some 't' → p.toList ≠ [] →
      jsStartsWith ("topk:" ++ s) p = false := by
    intro p hp hpe
    unfold jsStartsWith
    rw [htl]
    match hm : p.toList with
    | [] => exact absurd hm hpe
    | q :: qs =>
      rw [hm] at hp
      have hq : q ≠ 't' := by
        intro hq
        exact hp (by rw [hq]; rfl)
      simp [List.isPrefixOf, hq]
  have hr1 : jsStartsWith ("topk:" ++ s) "rank:" = false := hpw "rank:" (by decide) (by decide)
  have hr2 : jsStartsWith ("topk:" ++ s) "rolling_mean:" = false :=
    hpw "rolling_mean:" (by decide) (by decide)
  have hr3 : jsStartsWith ("topk:" ++ s) "date_group:" = false :=
    hpw "date_group:" (by decide) (by decide)
  have hr4 : jsStartsWith ("topk:" ++ s) "bin:" = false := hpw "bin:" (by decide) (by decide)
  have hr5 : jsStartsWith ("topk:" ++ s) "topk:" = true := by
    unfold jsStartsWith
    rw [htl, show ("topk:").toList = ['t', 'o', 'p', 'k', ':'] from rfl]
    simp [List.isPrefixOf]
  simp [applyTransform, hc, hne "" (by decide), hne "count" (by decide),
    hne "aggregate_sum" (by decide), hne "aggregate_mean" (by decide),
    hne "percent_of_total" (by decide), hne "correlation_matrix" (by decide),
    hr1, hr2, hr3, hr4, hr5]

theorem jsSlice_zero_nonneg {α : Type} (l : List α) (k : ℤ) (hk : 0 ≤ k) :
    jsSlice l 0 k = l.take k.toNat := by
  unfold jsSlice
  dsimp only
  rw [if_neg (by omega : ¬ ((0:ℤ) < 0)), if_neg (by omega : ¬ (k < 0))]
  rw [min_eq_left (by positivity : (0:ℤ) ≤ (l.length : ℤ))]
  simp only [Int.toNat_zero, List.drop_zero, Nat.sub_zero]
  by_cases hkl : k ≤ (l.length : ℤ)
  · rw [min_eq_left hkl]
  · rw [min_eq_right (by omega)]
    rw [Int.toNat_natCast, List.take_length, List.take_of_length_le (by omega)]

/-! ### C3: `topk:k` returns `min(k, #distinct)` records sorted by count -/

/-- C3: for a transform `topk:<s>` with `s` parsing to a positive integer
`k`, `applyTransform` returns exactly `min(k, number of distinct group
keys)` records, sorted descending by their group count. -/
theorem applyTransform_topk (env : JSEnv) (data : List Row) (c s : String) (k : ℤ)
    (hc : c ≠ "") (hs : ∀ ch ∈ s.toList, ch ≠ ':')
    (hk : parseIntStr s = some k) (hk1 : 1 ≤ k) :
    applyTransform env data c (some ("topk:" ++ s)) = some (topkTr data c s) ∧
      (topkTr data c s).length =
        min k.toNat ((data.map (fun r => groupKey r c)).toFinset.card) ∧
      List.Sorted (fun a b : Row => getNum b "count" ≤ getNum a "count") (topkTr data c s) := by
  have hsp : splitColonPart1 ("topk:" ++ s) = s :=
    splitColonPart1_tag ['t', 'o', 'p', 'k'] s (by decide) hs _ rfl
  have hko : parseIntOr s 10 = k := by
    unfold parseIntOr
    rw [hk]
    change (if k = 0 then 10 else k) = k
    rw [if_neg (by omega)]
  refine ⟨by rw [applyTransform_topk_eq env data c s hc, hsp], ?_, ?_⟩
  · unfold topkTr
    dsimp only
    rw [hko, jsSlice_zero_nonneg _ _ (by omega)]
    rw [List.length_map, List.length_take]
    congr 1
    rw [(List.perm_insertionSort countDesc (countsOf data c)).length_eq]
    exact foldCounts_length _
  · unfold topkTr
    dsimp only
    rw [hko, jsSlice_zero_nonneg _ _ (by omega)]
    apply List.Pairwise.map (countRecord c)
      (fun p q hpq => by
        rw [getNum_countRecord_count c p.1 p.2, getNum_countRecord_count c q.1 q.2]
        exact_mod_cast hpq)
    exact (List.sorted_insertionSort countDesc (countsOf data c)).sublist
      (List.take_sublist k.toNat _)

/-- Witness for C3 with `k = 2` over three rows in two groups. -/
theorem applyTransform_topk_witness :
    applyTransform envTriv [[("s", JSVal.str "a")], [("s", JSVal.str "a")],
        [("s", JSVal.str "b")]] "s" (some ("topk:" ++ "2")) =
      some (topkTr [[("s", JSVal.str "a")], [("s", JSVal.str "a")],
        [("s", JSVal.str "b")]] "s" "2") ∧
      (topkTr [[("s", JSVal.str "a")], [("s", JSVal.str "a")],
          [("s", JSVal.str "b")]] "s" "2").length =
        min (2 : ℤ).toNat
          ((([[("s", JSVal.str "a")], [("s", JSVal.str "a")],
            [("s", JSVal.str "b")]] : List Row).map
            (fun r => groupKey r "s")).toFinset.card) ∧
      List.Sorted (fun a b : Row => getNum b "count" ≤ getNum a "count")
        (topkTr [[("s", JSVal.str "a")], [("s", JSVal.str "a")],
          [("s", JSVal.str "b")]] "s" "2") :=
  applyTransform_topk envTriv
    [[("s", JSVal.str "a")], [("s", JSVal.str "a")], [("s", JSVal.str "b")]]
    "s" "2" 2 (by decide) (by decide) (by decide) (by decide)

/-! ### C7: `date_group:` drops unparseable rows (corrected claim) -/

theorem length_filterMap_eq_length_filter {α β : Type} (f : α → Option β) (l : List α) :
    (l.filterMap f).length = (l.filter (fun a => (f a).isSome)).length := by
  induction l with
  | nil => simp
  | cons a rest ih =>
    cases hfa : f a <;> simp [List.filterMap_cons, hfa, ih]

theorem dateGroupRowKey_isSome (c g : String) (r : Row) :
    (dateGroupRowKey c g r).isSome =
      ((getField r c).truthy && (jsParseDate (getField r c)).isSome) := by
  unfold dateGroupRowKey
  cases hv : (getField r c).truthy <;> cases hp : jsParseDate (getField r c) <;>
    simp [hv, hp]

/-- Dispatch of `applyTransform` on a `date_group:<s>` transform string. -/
theorem applyTransform_dateGroup_eq (env : JSEnv) (data : List Row) (c : String) (s : String)
    (hc : c ≠ "") :
    applyTransform env data c (some ("date_group:" ++ s)) =
      some (dateGroupTr data c (splitColonPart1 ("date_group:" ++ s))) := by
  have htl : ("date_group:" ++ s).toList =
      'd' :: 'a' :: 't' :: 'e' :: '_' :: 'g' :: 'r' :: 'o' :: 'u' :: 'p' :: ':' :: s.toList := rfl
  have hne : ∀ u : String, u.toList.head? ≠ some 'd' → ("date_group:" ++ s) ≠ u := by
    intro u hu hEq
    apply hu
    rw [← hEq, htl]
    rfl
  have hpw : ∀ p : String, p.toList.head? ≠ some 'd' → p.toList ≠ [] →
      jsStartsWith ("date_group:" ++ s) p = false := by
    intro p hp hpe
    unfold jsStartsWith
    rw [htl]
    match hm : p.toList with
    | [] => exact absurd hm hpe
    | q :: qs =>
      rw [hm] at hp
      have hq : q ≠ 'd' := by
        intro hq
        exact hp (by rw [hq]; rfl)
      simp [List.isPrefixOf, hq]
  have hr1 : jsStartsWith ("date_group:" ++ s) "rank:" = false :=
    hpw "rank:" (by decide) (by decide)
  have hr2 : jsStartsWith ("date_group:" ++ s) "rolling_mean:" = false :=
    hpw "rolling_mean:" (by decide) (by decide)
  have hr3 : jsStartsWith ("date_group:" ++ s) "date_group:" = true := by
    unfold jsStartsWith
    rw [htl, show ("date_group:").toList =
      ['d', 'a', 't', 'e', '_', 'g', 'r', 'o', 'u', 'p', ':'] from rfl]
    simp [List.isPrefixOf]
  simp [applyTransform, hc, hne "" (by decide), hne "count" (by decide),
    hne "aggregate_sum" (by decide), hne "aggregate_mean" (by decide),
    hne "percent_of_total" (by decide), hne "correlation_matrix" (by decide),
    hr1, hr2, hr3]

/-- C7 (amended): under `date_group:<g>`, a row whose column value is falsy
or does not parse as a date contributes nothing to the output (the source
comments the path `// Skip invalid dates`), while the parsed rows are
bucketed under their canonical keys; the emitted counts sum to the number of
rows that parsed, each parsed row's bucket key appears among the emitted
records, and for `quarter` the key is `"YYYY-Qn"` with `n = ceil(month/3)`. -/
theorem applyTransform_dateGroup_drops (env : JSEnv) (data : List Row) (c g : String)
    (hc : c ≠ "") (hcc : c ≠ "count") (hcv : c ≠ "value")
    (hg : ∀ ch ∈ g.toList, ch ≠ ':') :
    applyTransform env data c (some ("date_group:" ++ g)) = some (dateGroupTr data c g) ∧
      ((dateGroupTr data c g).map (fun r => getNum r "count")).sum =
        ((data.filter (fun r =>
          (getField r c).truthy && (jsParseDate (getField r c)).isSome)).length : ℚ) ∧
      (∀ r ∈ data, ∀ d, (getField r c).truthy = true →
        jsParseDate (getField r c) = some d →
        JSVal.str (dateGroupKey g (getField r c) d) ∈
          (dateGroupTr data c g).map (fun rec => getField rec c)) ∧
      (∀ v : JSVal, ∀ d : SDate, dateGroupKey "quarter" v d =
        toString d.year ++ "-Q" ++ toString ((d.month + 2) / 3)) := by
  have hsp : splitColonPart1 ("date_group:" ++ g) = g :=
    splitColonPart1_tag ['d', 'a', 't', 'e', '_', 'g', 'r', 'o', 'u', 'p'] g (by decide) hg _ rfl
  have hperm : ∀ gr : List (String × ℕ),
      (if g = "month_year" then List.insertionSort monthYearRel gr
        else List.insertionSort keyLe gr).Perm gr := by
    intro gr
    by_cases hmg : g = "month_year"
    · rw [if_pos hmg]
      exact List.perm_insertionSort monthYearRel gr
    · rw [if_neg hmg]
      exact List.perm_insertionSort keyLe gr
  refine ⟨by rw [applyTransform_dateGroup_eq env data c g hc, hsp], ?_, ?_, ?_⟩
  · unfold dateGroupTr
    have hmap : ∀ p : String × ℕ,
        getNum (mkObj [(c, JSVal.str p.1), ("count", JSVal.num p.2),
          ("value", JSVal.num p.2)]) "count" = ((p.2 : ℕ) : ℚ) := by
      intro p
      exact getNum_countRecord_count c p.1 p.2
    rw [List.map_map]
    have h1 : ((fun r => getNum r "count") ∘ fun p : String × ℕ =>
        mkObj [(c, JSVal.str p.1), ("count", JSVal.num p.2), ("value", JSVal.num p.2)]) =
        fun p : String × ℕ => ((p.2 : ℕ) : ℚ) := by
      funext p
      exact hmap p
    rw [h1]
    rw [List.Perm.sum_eq (List.Perm.map _ (hperm _))]
    have h2 : (foldCounts (data.filterMap (dateGroupRowKey c g))).map
        (fun p : String × ℕ => ((p.2 : ℕ) : ℚ)) =
        ((foldCounts (data.filterMap (dateGroupRowKey c g))).map Prod.snd).map
          (fun n : ℕ => (n : ℚ)) := by
      rw [List.map_map]
      rfl
    rw [h2, ← Nat.cast_list_sum, foldCounts_sum, length_filterMap_eq_length_filter]
    have h3 : (fun a => (dateGroupRowKey c g a).isSome) =
        (fun r : Row => (getField r c).truthy && (jsParseDate (getField r c)).isSome) := by
      funext r
      exact dateGroupRowKey_isSome c g r
    rw [h3]
  · intro r hr d hv hp
    have hkey : dateGroupRowKey c g r = some (dateGroupKey g (getField r c) d) := by
      unfold dateGroupRowKey
      simp [hv, hp]
    have hmem1 : dateGroupKey g (getField r c) d ∈ data.filterMap (dateGroupRowKey c g) :=
      List.mem_filterMap.mpr ⟨r, hr, hkey⟩
    have hmem2 : dateGroupKey g (getField r c) d ∈
        (foldCounts (data.filterMap (dateGroupRowKey c g))).map Prod.fst := by
      have hf := foldCounts_keys_toFinset_aux (data.filterMap (dateGroupRowKey c g)) []
      have : dateGroupKey g (getField r c) d ∈
          ((foldCounts (data.filterMap (dateGroupRowKey c g))).map Prod.fst).toFinset := by
        rw [show foldCounts (data.filterMap (dateGroupRowKey c g)) =
          (data.filterMap (dateGroupRowKey c g)).foldl bumpKey [] from rfl, hf]
        simp only [Finset.mem_union, List.mem_toFinset]
        exact Or.inr hmem1
      simpa using this
    unfold dateGroupTr
    obtain ⟨p, hpmem, hpfst⟩ := List.mem_map.mp hmem2
    have hpmem2 : p ∈ (if g = "month_year" then
        List.insertionSort monthYearRel (foldCounts (data.filterMap (dateGroupRowKey c g)))
        else List.insertionSort keyLe (foldCounts (data.filterMap (dateGroupRowKey c g)))) :=
      ((hperm _).mem_iff).mpr hpmem
    refine List.mem_map.mpr ⟨mkObj [(c, JSVal.str p.1), ("count", JSVal.num p.2),
      ("value", JSVal.num p.2)], List.mem_map.mpr ⟨p, hpmem2, rfl⟩, ?_⟩
    rw [show mkObj [(c, JSVal.str p.1), ("count", JSVal.num p.2), ("value", JSVal.num p.2)] =
      countRecord c (p.1, p.2) from rfl]
    rw [getField_countRecord_key c p.1 p.2 hcc hcv, hpfst]
  · intro v d
    simp [dateGroupKey]

/-- Witness for C7's amended claim: one parsed and one dropped row. -/
theorem applyTransform_dateGroup_drops_witness :
    applyTransform envTriv [[("d", JSVal.str "2024-05-01")], [("d", JSVal.str "notadate")]]
        "d" (some ("date_group:" ++ "quarter")) =
      some (dateGroupTr [[("d", JSVal.str "2024-05-01")], [("d", JSVal.str "notadate")]]
        "d" "quarter") ∧
      ((dateGroupTr [[("d", JSVal.str "2024-05-01")], [("d", JSVal.str "notadate")]]
          "d" "quarter").map (fun r => getNum r "count")).sum =
        ((([[("d", JSVal.str "2024-05-01")], [("d", JSVal.str "notadate")]] : List Row).filter
          (fun r => (getField r "d").truthy && (jsParseDate (getField r "d")).isSome)).length
          : ℚ) ∧
      (∀ r ∈ ([[("d", JSVal.str "2024-05-01")], [("d", JSVal.str "notadate")]] : List Row),
        ∀ d, (getField r "d").truthy = true → jsParseDate (getField r "d") = some d →
        JSVal.str (dateGroupKey "quarter" (getField r "d") d) ∈
          (dateGroupTr [[("d", JSVal.str "2024-05-01")], [("d", JSVal.str "notadate")]]
            "d" "quarter").map (fun rec => getField rec "d")) ∧
      (∀ v : JSVal, ∀ d : SDate, dateGroupKey "quarter" v d =
        toString d.year ++ "-Q" ++ toString ((d.month + 2) / 3)) :=
  applyTransform_dateGroup_drops envTriv
    [[("d", JSVal.str "2024-05-01")], [("d", JSVal.str "notadate")]] "d" "quarter"
    (by decide) (by decide) (by decide) (by decide)

/-- C7 counterexample against the claim as stated: a truthy but unparseable
value is dropped entirely — the transform output is empty, so the row does
not contribute with its original value. -/
theorem applyTransform_dateGroup_counterexample :
    applyTransform envTriv [[("d", JSVal.str "notadate")]] "d"
        (some "date_group:quarter") = some [] ∧
      jsParseDate (JSVal.str "notadate") = none ∧
      (JSVal.str "notadate").truthy = true := by
  refine ⟨?_, by decide, by decide⟩
  have h := applyTransform_dateGroup_eq envTriv [[("d", JSVal.str "notadate")]] "d" "quarter"
    (by decide)
  rw [show ("date_group:" ++ "quarter") = "date_group:quarter" from rfl] at h
  rw [h]
  rfl

/-! ### C2: `bin:N` (corrected claim) -/

theorem foldl_min_le_init (l : List ℚ) (a : ℚ) : l.foldl min a ≤ a := by
  induction l generalizing a with
  | nil => simp
  | cons x xs ih => exact le_trans (ih (min a x)) (min_le_left a x)

theorem foldl_min_le_mem (l : List ℚ) (a v : ℚ) (hv : v ∈ l) : l.foldl min a ≤ v := by
  induction l generalizing a with
  | nil => simp at hv
  | cons x xs ih =>
    rcases List.mem_cons.mp hv with h | h
    · subst h
      exact le_trans (foldl_min_le_init xs (min a v)) (min_le_right a v)
    · exact ih (min a x) h

theorem listMinD_le (d : ℚ) (l : List ℚ) (v : ℚ) (hv : v ∈ l) : listMinD d l ≤ v := by
  match l, hv with
  | x :: xs, hv =>
    unfold listMinD
    rcases List.mem_cons.mp hv with h | h
    · subst h
      exact foldl_min_le_init xs v
    · exact foldl_min_le_mem xs x v h

theorem init_le_foldl_max (l : List ℚ) (a : ℚ) : a ≤ l.foldl max a := by
  induction l generalizing a with
  | nil => simp
  | cons x xs ih => exact le_trans (le_max_left a x) (ih (max a x))

theorem mem_le_foldl_max (l : List ℚ) (a v : ℚ) (hv : v ∈ l) : v ≤ l.foldl max a := by
  induction l generalizing a with
  | nil => simp at hv
  | cons x xs ih =>
    rcases List.mem_cons.mp hv with h | h
    · subst h
      exact le_trans (le_max_right a v) (init_le_foldl_max xs (max a v))
    · exact ih (max a x) h

theorem le_listMaxD (d : ℚ) (l : List ℚ) (v : ℚ) (hv : v ∈ l) : v ≤ listMaxD d l := by
  match l, hv with
  | x :: xs, hv =>
    unfold listMaxD
    rcases List.mem_cons.mp hv with h | h
    · subst h
      exact init_le_foldl_max xs v
    · exact mem_le_foldl_max xs x v h

theorem bumpBin_spec (counts : List ℕ) (i : ℤ) (h0 : 0 ≤ i) (h1 : i.toNat < counts.length) :
    ∃ c2, bumpBin counts i = some c2 ∧ c2.length = counts.length ∧
      c2.sum = counts.sum + 1 := by
  induction counts generalizing i with
  | nil => simp at h1
  | cons n rest ih =>
    by_cases hz : i = 0
    · subst hz
      exact ⟨(n + 1) :: rest, by simp [bumpBin], by simp, by simp; ring⟩
    · have h1' : (i - 1).toNat < rest.length := by
        simp only [List.length_cons] at h1
        omega
      obtain ⟨c2, hc2, hl, hsum⟩ := ih (i - 1) (by omega) h1'
      refine ⟨n :: c2, ?_, by simp [hl], by simp [hsum]; ring⟩
      simp [bumpBin, hz, hc2, show ¬ i < 0 by omega]

theorem binFoldCounts_spec (assign : ℚ → Option ℤ) (vs : List ℚ) (counts : List ℕ)
    (h : ∀ v ∈ vs, ∃ i, assign v = some i ∧ 0 ≤ i ∧ i.toNat < counts.length) :
    ∃ c2, binFoldCounts assign vs counts = some c2 ∧ c2.length = counts.length ∧
      c2.sum = counts.sum + vs.length := by
  induction vs generalizing counts with
  | nil => exact ⟨counts, rfl, rfl, by simp⟩
  | cons v rest ih =>
    obtain ⟨i, hi, hi0, hi1⟩ := h v (by simp)
    obtain ⟨c2, hc2, hl2, hs2⟩ := bumpBin_spec counts i hi0 hi1
    obtain ⟨c3, hc3, hl3, hs3⟩ := ih c2 (fun w hw => by
      obtain ⟨j, hj1, hj2, hj3⟩ := h w (by simp [hw])
      exact ⟨j, hj1, hj2, by rw [hl2]; exact hj3⟩)
    refine ⟨c3, ?_, by rw [hl3, hl2], ?_⟩
    · simp [binFoldCounts, hi, hc2, hc3]
    · rw [hs3, hs2]
      simp only [List.length_cons]
      ring

theorem zip_map_snd {α β γ : Type} (l1 : List α) (l2 : List β) (f : β → γ)
    (h : l1.length = l2.length) : (l1.zip l2).map (fun p => f p.2) = l2.map f := by
  induction l1 generalizing l2 with
  | nil =>
    cases l2 with
    | nil => simp
    | cons b bs => simp at h
  | cons a as ih =>
    cases l2 with
    | nil => simp at h
    | cons b bs =>
      simp only [List.zip_cons_cons, List.map_cons]
      rw [ih bs (by simpa using h)]

/-- Dispatch of `applyTransform` on a `bin:<s>` transform string. -/
theorem applyTransform_bin_eq (env : JSEnv) (data : List Row) (c : String) (s : String)
    (hc : c ≠ "") :
    applyTransform env data c (some ("bin:" ++ s)) =
      binTr data c (splitColonPart1 ("bin:" ++ s)) := by
  have htl : ("bin:" ++ s).toList = 'b' :: 'i' :: 'n' :: ':' :: s.toList := rfl
  have hne : ∀ u : String, u.toList.head? ≠ some 'b' → ("bin:" ++ s) ≠ u := by
    intro u hu hEq
    apply hu
    rw [← hEq, htl]
    rfl
  have hpw : ∀ p : String, p.toList.head? ≠ some 'b' → p.toList ≠ [] →
      jsStartsWith ("bin:" ++ s) p = false := by
    intro p hp hpe
    unfold jsStartsWith
    rw [htl]
    match hm : p.toList with
    | [] => exact absurd hm hpe
    | q :: qs =>
      rw [hm] at hp
      have hq : q ≠ 'b' := by
        intro hq
        exact hp (by rw [hq]; rfl)
      simp [List.isPrefixOf, hq]
  have hr1 : jsStartsWith ("bin:" ++ s) "rank:" = false := hpw "rank:" (by decide) (by decide)
  have hr2 : jsStartsWith ("bin:" ++ s) "rolling_mean:" = false :=
    hpw "rolling_mean:" (by decide) (by decide)
  have hr3 : jsStartsWith ("bin:" ++ s) "date_group:" = false :=
    hpw "date_group:" (by decide) (by decide)
  have hr4 : jsStartsWith ("bin:" ++ s) "bin:" = true := by
    unfold jsStartsWith
    rw [htl, show ("bin:").toList = ['b', 'i', 'n', ':'] from rfl]
    simp [List.isPrefixOf]
  simp [applyTransform, hc, hne "" (by decide), hne "count" (by decide),
    hne "aggregate_sum" (by decide), hne "aggregate_mean" (by decide),
    hne "percent_of_total" (by decide), hne "correlation_matrix" (by decide),
    hr1, hr2, hr3, hr4]

/-- C2 (amended: at least two distinct numeric values, so that the bin width
is nonzero): `bin:<s>` with `s` parsing to a positive integer `k` emits `k`
records whose counts sum to the number of input rows; every value is
assigned exactly one bin index `i = min(floor((v−min)/w), k−1)` with
`0 ≤ i < k`; the boundaries `min + i·w` (`w = (max−min)/k`) bracket each
value (`min + i·w ≤ v`, and `v < min + (i+1)·w` except in the clamped last
bin), and the `k` equal-width intervals end exactly at `max`. -/
theorem applyTransform_bin_partition (env : JSEnv) (data : List Row) (c s : String) (k : ℤ)
    (hc : c ≠ "") (hs : ∀ ch ∈ s.toList, ch ≠ ':')
    (hk : parseIntStr s = some k) (hk1 : 1 ≤ k)
    (hnum : ∀ r ∈ data, ∃ q : ℚ, getField r c = JSVal.num q)
    (hlt : listMinD 0 (numValues data c) < listMaxD 0 (numValues data c)) :
    ∃ out, applyTransform env data c (some ("bin:" ++ s)) = some out ∧
      out.length = k.toNat ∧
      (out.map (fun r => getNum r "count")).sum = (data.length : ℚ) ∧
      listMinD 0 (numValues data c) +
          (k : ℚ) * ((listMaxD 0 (numValues data c) - listMinD 0 (numValues data c)) / (k : ℚ)) =
        listMaxD 0 (numValues data c) ∧
      ∀ v ∈ numValues data c, ∃ i : ℤ,
        binAssign (listMinD 0 (numValues data c))
            ((listMaxD 0 (numValues data c) - listMinD 0 (numValues data c)) / (k : ℚ)) k v =
          some i ∧ 0 ≤ i ∧ i < k ∧
        listMinD 0 (numValues data c) + (i : ℚ) *
            ((listMaxD 0 (numValues data c) - listMinD 0 (numValues data c)) / (k : ℚ)) ≤ v ∧
        (v < listMinD 0 (numValues data c) + ((i : ℚ) + 1) *
            ((listMaxD 0 (numValues data c) - listMinD 0 (numValues data c)) / (k : ℚ)) ∨
          i = k - 1) := by
  have hsp : splitColonPart1 ("bin:" ++ s) = s :=
    splitColonPart1_tag ['b', 'i', 'n'] s (by decide) hs _ rfl
  have hsauto : s ≠ "auto" := by
    intro h
    rw [h, show parseIntStr "auto" = none from by decide] at hk
    exact Option.noConfusion hk
  have hko : parseIntOr s 10 = k := by
    unfold parseIntOr
    rw [hk]
    change (if k = 0 then 10 else k) = k
    rw [if_neg (by omega)]
  have hkq : (0 : ℚ) < (k : ℚ) := by exact_mod_cast (by omega : (0:ℤ) < k)
  have hw : 0 < (listMaxD 0 (numValues data c) - listMinD 0 (numValues data c)) / (k : ℚ) :=
    div_pos (by linarith) hkq
  have hwne : (listMaxD 0 (numValues data c) - listMinD 0 (numValues data c)) / (k : ℚ) ≠ 0 :=
    ne_of_gt hw
  set minV := listMinD 0 (numValues data c) with hminV
  set maxV := listMaxD 0 (numValues data c) with hmaxV
  set w := (maxV - minV) / (k : ℚ) with hwdef
  have hassign : ∀ v ∈ numValues data c, ∃ i : ℤ,
      binAssign minV w k v = some i ∧ 0 ≤ i ∧ i < k ∧
      minV + (i : ℚ) * w ≤ v ∧
      (v < minV + ((i : ℚ) + 1) * w ∨ i = k - 1) := by
    intro v hv
    have hvmin : minV ≤ v := listMinD_le 0 _ v hv
    have hfl0 : 0 ≤ ⌊(v - minV) / w⌋ := by
      apply Int.floor_nonneg.mpr
      apply div_nonneg (by linarith) (le_of_lt hw)
    refine ⟨min ⌊(v - minV) / w⌋ (k - 1), ?_, ?_, ?_, ?_, ?_⟩
    · unfold binAssign
      rw [if_neg hwne, qFloor_eq_floor]
    · omega
    · omega
    · have h1 : ((min ⌊(v - minV) / w⌋ (k - 1) : ℤ) : ℚ) ≤ ((⌊(v - minV) / w⌋ : ℤ) : ℚ) := by
        exact_mod_cast min_le_left _ _
      have h2 : ((⌊(v - minV) / w⌋ : ℤ) : ℚ) ≤ (v - minV) / w := Int.floor_le _
      have h3 : ((min ⌊(v - minV) / w⌋ (k - 1) : ℤ) : ℚ) * w ≤ v - minV := by
        rw [← le_div_iff hw]
        exact le_trans h1 h2
      linarith
    · by_cases hcase : ⌊(v - minV) / w⌋ ≤ k - 1
      · left
        rw [min_eq_left hcase]
        have h2 : (v - minV) / w < ((⌊(v - minV) / w⌋ : ℤ) : ℚ) + 1 := Int.lt_floor_add_one _
        have h3 : v - minV < (((⌊(v - minV) / w⌋ : ℤ) : ℚ) + 1) * w := by
          rw [← div_lt_iff hw]
          exact h2
        linarith
      · right
        omega
  have hvalslen : (numValues data c).length = data.length := by
    simp [numValues]
  obtain ⟨counts, hcounts, hclen, hcsum⟩ := binFoldCounts_spec (binAssign minV w k)
    (numValues data c) (List.replicate k.toNat 0)
    (fun v hv => by
      obtain ⟨i, hi1, hi2, hi3, _, _⟩ := hassign v hv
      exact ⟨i, hi1, hi2, by rw [List.length_replicate]; omega⟩)
  refine ⟨binRecordsOf c minV w k.toNat counts, ?_, ?_, ?_, ?_, hassign⟩
  · rw [applyTransform_bin_eq env data c s hc, hsp]
    unfold binTr
    dsimp only
    rw [if_neg hsauto, hko]
    rw [← hminV, ← hmaxV, ← hwdef]
    rw [hcounts]
  · unfold binRecordsOf
    rw [List.length_map, List.length_zip, List.length_map, List.length_range, hclen,
      List.length_replicate, min_self]
  · unfold binRecordsOf
    rw [List.map_map]
    have h1 : ((fun r => getNum r "count") ∘ fun p : String × ℕ =>
        mkObj [(c, JSVal.str p.1), ("count", JSVal.num p.2)]) =
        fun p : String × ℕ => ((p.2 : ℕ) : ℚ) := by
      funext p
      show getNum (mkObj [(c, JSVal.str p.1), ("count", JSVal.num p.2)]) "count" =
        ((p.2 : ℕ) : ℚ)
      unfold getNum
      rw [getField_binRecord_count]
    rw [h1]
    have h2 : (((List.range k.toNat).map (fun (i : ℕ) =>
        qToFixed1 (minV + (i : ℚ) * w) ++ "-" ++
          qToFixed1 (minV + ((i : ℚ) + 1) * w))).zip counts).map
          (fun p : String × ℕ => ((p.2 : ℕ) : ℚ)) =
        counts.map (fun n : ℕ => (n : ℚ)) :=
      zip_map_snd _ _ _ (by
        rw [List.length_map, List.length_range, hclen, List.length_replicate])
    rw [h2, ← Nat.cast_list_sum, hcsum, List.sum_replicate, hvalslen]
    norm_num
  · rw [hwdef, mul_comm, div_mul_cancel₀ _ (ne_of_gt hkq)]
    ring

/-- C2 counterexample against the claim as stated: on the single-row numeric
dataset `[{v: 5}]` (all values equal, so the bin width is `0`), `bin:2`
throws — `(5 − 5) / 0` is `NaN`, `bins[NaN]` is `undefined`, and
`undefined.count++` is a `TypeError` — so no records are returned and no
bin-count sum can equal the row count. -/
theorem applyTransform_bin_counterexample :
    applyTransform envTriv [[("v", JSVal.num 5)]] "v" (some "bin:2") = none ∧
      ¬ ∃ out, applyTransform envTriv [[("v", JSVal.num 5)]] "v" (some "bin:2") = some out ∧
        (out.map (fun r => getNum r "count")).sum =
          (([[("v", JSVal.num 5)]] : List Row).length : ℚ) := by
  have h1 : applyTransform envTriv [[("v", JSVal.num 5)]] "v" (some "bin:2") = none := by
    rw [show ("bin:2" : String) = "bin:" ++ "2" from rfl,
      applyTransform_bin_eq envTriv [[("v", JSVal.num 5)]] "v" "2" (by decide),
      show splitColonPart1 ("bin:" ++ "2") = "2" from
        splitColonPart1_tag ['b', 'i', 'n'] "2" (by decide) (by decide) _ rfl]
    unfold binTr
    dsimp only
    rw [if_neg (by decide : ¬ ("2" : String) = "auto")]
    rw [show parseIntOr "2" 10 = (2 : ℤ) from by decide]
    rw [show numValues [[("v", JSVal.num 5)]] "v" = [(5 : ℚ)] from rfl]
    rw [show listMinD 0 [(5 : ℚ)] = 5 from rfl, show listMaxD 0 [(5 : ℚ)] = 5 from rfl]
    rw [show ((5 : ℚ) - 5) / ((2 : ℤ) : ℚ) = 0 from by norm_num]
    simp [binFoldCounts, binAssign]
  refine ⟨h1, ?_⟩
  rintro ⟨out, hout, _⟩
  rw [h1] at hout
  exact Option.noConfusion hout

/-- Witness for C2's amended claim on `[{v:1},{v:3}]` with `bin:2`. -/
theorem applyTransform_bin_partition_witness :
    ∃ out, applyTransform envTriv [[("v", JSVal.num 1)], [("v", JSVal.num 3)]] "v"
        (some ("bin:" ++ "2")) = some out ∧
      out.length = (2 : ℤ).toNat ∧
      (out.map (fun r => getNum r "count")).sum =
        (([[("v", JSVal.num 1)], [("v", JSVal.num 3)]] : List Row).length : ℚ) ∧
      listMinD 0 (numValues [[("v", JSVal.num 1)], [("v", JSVal.num 3)]] "v") +
          ((2 : ℤ) : ℚ) *
            ((listMaxD 0 (numValues [[("v", JSVal.num 1)], [("v", JSVal.num 3)]] "v") -
              listMinD 0 (numValues [[("v", JSVal.num 1)], [("v", JSVal.num 3)]] "v")) /
              ((2 : ℤ) : ℚ)) =
        listMaxD 0 (numValues [[("v", JSVal.num 1)], [("v", JSVal.num 3)]] "v") ∧
      ∀ v ∈ numValues [[("v", JSVal.num 1)], [("v", JSVal.num 3)]] "v", ∃ i : ℤ,
        binAssign (listMinD 0 (numValues [[("v", JSVal.num 1)], [("v", JSVal.num 3)]] "v"))
            ((listMaxD 0 (numValues [[("v", JSVal.num 1)], [("v", JSVal.num 3)]] "v") -
              listMinD 0 (numValues [[("v", JSVal.num 1)], [("v", JSVal.num 3)]] "v")) /
              ((2 : ℤ) : ℚ)) 2 v =
          some i ∧ 0 ≤ i ∧ i < 2 ∧
        listMinD 0 (numValues [[("v", JSVal.num 1)], [("v", JSVal.num 3)]] "v") + (i : ℚ) *
            ((listMaxD 0 (numValues [[("v", JSVal.num 1)], [("v", JSVal.num 3)]] "v") -
              listMinD 0 (numValues [[("v", JSVal.num 1)], [("v", JSVal.num 3)]] "v")) /
              ((2 : ℤ) : ℚ)) ≤ v ∧
        (v < listMinD 0 (numValues [[("v", JSVal.num 1)], [("v", JSVal.num 3)]] "v") +
            ((i : ℚ) + 1) *
            ((listMaxD 0 (numValues [[("v", JSVal.num 1)], [("v", JSVal.num 3)]] "v") -
              listMinD 0 (numValues [[("v", JSVal.num 1)], [("v", JSVal.num 3)]] "v")) /
              ((2 : ℤ) : ℚ)) ∨
          i = 2 - 1) :=
  applyTransform_bin_partition envTriv [[("v", JSVal.num 1)], [("v", JSVal.num 3)]] "v" "2" 2
    (by decide) (by decide) (by decide) (by decide)
    (by
      intro r hr
      rcases List.mem_cons.mp hr with h | h
      · exact ⟨1, by rw [h]; rfl⟩
      · rcases List.mem_cons.mp h with h2 | h2
        · exact ⟨3, by rw [h2]; rfl⟩
        · simp at h2)
    (by
      rw [show numValues [[("v", JSVal.num 1)], [("v", JSVal.num 3)]] "v" = [(1 : ℚ), 3]
        from rfl]
      rw [show listMinD 0 [(1 : ℚ), 3] = min 1 3 from rfl,
        show listMaxD 0 [(1 : ℚ), 3] = max 1 3 from rfl]
      rw [show min (1 : ℚ) 3 = 1 from by norm_num [min_def],
        show max (1 : ℚ) 3 = 3 from by norm_num [max_def]]
      norm_num)

/-! ### C8: correlation-matrix heatmap — diagonal `1`, off-diagonal random -/

theorem objKeysAux_subset_not_seen (l : List String) (seen : List String) :
    ∀ x ∈ objKeysAux l seen, x ∉ seen := by
  induction l generalizing seen with
  | nil => intro x hx; simp [objKeysAux] at hx
  | cons a rest ih =>
    intro x hx
    unfold objKeysAux at hx
    by_cases hm : a ∈ seen
    · rw [if_pos hm] at hx
      exact ih seen x hx
    · rw [if_neg hm] at hx
      rcases List.mem_cons.mp hx with h | h
      · subst h
        exact hm
      · intro hxs
        exact ih (a :: seen) x h (List.mem_cons_of_mem a hxs)

theorem objKeysAux_nodup (l : List String) (seen : List String) :
    (objKeysAux l seen).Nodup := by
  induction l generalizing seen with
  | nil => simp [objKeysAux]
  | cons a rest ih =>
    unfold objKeysAux
    by_cases hm : a ∈ seen
    · rw [if_pos hm]
      exact ih seen
    · rw [if_neg hm]
      refine List.nodup_cons.mpr ⟨?_, ih (a :: seen)⟩
      intro ha
      exact objKeysAux_subset_not_seen rest (a :: seen) a ha (List.mem_cons_self a seen)

theorem objKeys_nodup (r : Row) : (objKeys r).Nodup :=
  objKeysAux_nodup _ []

theorem allPairs_bounds (n : ℕ) : ∀ ij ∈ allPairs n, ij.1 < n ∧ ij.2 < n := by
  intro ij hij
  unfold allPairs at hij
  rcases List.mem_flatMap.mp hij with ⟨i, hi, hmem⟩
  rcases List.mem_map.mp hmem with ⟨j, hj, hEq⟩
  subst hEq
  exact ⟨List.mem_range.mp hi, List.mem_range.mp hj⟩

theorem getField_corr_x (a b c d : JSVal) :
    getField (mkObj [("x", a), ("y", b), ("value", c), ("count", d)]) "x" = a := by
  unfold mkObj
  simp only [List.foldl_cons, List.foldl_nil]
  rw [getField_setField_other _ _ _ _ (by decide), getField_setField_other _ _ _ _ (by decide),
    getField_setField_other _ _ _ _ (by decide), getField_setField_self]

theorem getField_corr_y (a b c d : JSVal) :
    getField (mkObj [("x", a), ("y", b), ("value", c), ("count", d)]) "y" = b := by
  unfold mkObj
  simp only [List.foldl_cons, List.foldl_nil]
  rw [getField_setField_other _ _ _ _ (by decide), getField_setField_other _ _ _ _ (by decide),
    getField_setField_self]

theorem getField_corr_value (a b c d : JSVal) :
    getField (mkObj [("x", a), ("y", b), ("value", c), ("count", d)]) "value" = c := by
  unfold mkObj
  simp only [List.foldl_cons, List.foldl_nil]
  rw [getField_setField_other _ _ _ _ (by decide), getField_setField_self]

theorem corrGo_diag (rand : ℕ → ℚ) (cols : List String) (hnd : cols.Nodup)
    (pairs : List (ℕ × ℕ)) (hb : ∀ ij ∈ pairs, ij.1 < cols.length ∧ ij.2 < cols.length) :
    ∀ k, ∀ e ∈ corrGo rand cols pairs k,
      getField e "x" = getField e "y" → getField e "value" = JSVal.num 1 := by
  induction pairs with
  | nil => intro k e he; simp [corrGo] at he
  | cons ij rest ih =>
    intro k e he hxy
    simp only [corrGo] at he
    rcases List.mem_cons.mp he with h | h
    · subst h
      rw [getField_corr_x, getField_corr_y] at hxy
      have hps := hb ij (by simp)
      have hij : ij.1 = ij.2 := by
        have hstr : cols.getD ij.1 "" = cols.getD ij.2 "" := by injection hxy
        rw [List.getD_eq_getElem _ _ hps.1, List.getD_eq_getElem _ _ hps.2] at hstr
        exact (List.Nodup.getElem_inj_iff hnd).mp hstr
      rw [getField_corr_value, if_pos hij]
      norm_num [jsRound_eq_floor]
    · exact ih (fun p hp => hb p (by simp [hp])) _ e h hxy

/-- C8: in correlation-matrix mode every diagonal pair (a numeric column
paired with itself) gets value `1`, for every dataset and every random
stream; and the processor is not a deterministic function of the dataset:
two `Math.random()` streams can give different outputs on the same input. -/
theorem processHeatmapChart_correlation (rand : ℕ → ℚ) (data : List Row) (spec : VisSpec)
    (hcm : spec.transform_x = some "correlation_matrix" ∨
      spec.transform_y = some "correlation_matrix") :
    (∀ e ∈ processHeatmapChart rand data spec,
      getField e "x" = getField e "y" → getField e "value" = JSVal.num 1) ∧
    ∃ d : List Row, ∃ sp : VisSpec, ∃ r1 r2 : ℕ → ℚ,
      processHeatmapChart r1 d sp ≠ processHeatmapChart r2 d sp := by
  constructor
  · intro e he hxy
    unfold processHeatmapChart at he
    by_cases h0 : ¬ optTruthy spec.x = true ∨ ¬ optTruthy spec.y = true ∨ data.isEmpty = true
    · rw [if_pos h0] at he
      simp at he
    · rw [if_neg h0, if_pos hcm] at he
      refine corrGo_diag rand _ ?_ _ ?_ 0 e he hxy
      · exact ((objKeys_nodup (data.headD [])).filter _).sublist (List.take_sublist _ _)
      · exact allPairs_bounds _
  · refine ⟨[[("a", JSVal.num 1), ("b", JSVal.num 2)]],
      ⟨"heatmap", some "a", some "b", none, none, some "correlation_matrix", none, none⟩,
      (fun _ => 0), (fun _ => 1 / 2), ?_⟩
    intro hEq
    have h := congrArg (fun l => getField (l.getD 1 []) "value") hEq
    rw [show processHeatmapChart (fun _ => 0)
          [[("a", JSVal.num 1), ("b", JSVal.num 2)]]
          ⟨"heatmap", some "a", some "b", none, none, some "correlation_matrix", none, none⟩ =
        corrGo (fun _ => 0) ["a", "b"] [(0, 0), (0, 1), (1, 0), (1, 1)] 0 from rfl,
      show processHeatmapChart (fun _ => 1 / 2)
          [[("a", JSVal.num 1), ("b", JSVal.num 2)]]
          ⟨"heatmap", some "a", some "b", none, none, some "correlation_matrix", none, none⟩ =
        corrGo (fun _ => 1 / 2) ["a", "b"] [(0, 0), (0, 1), (1, 0), (1, 1)] 0 from rfl] at h
    simp only [corrGo] at h
    simp only [List.getD_cons_succ, List.getD_cons_zero] at h
    rw [getField_corr_value, getField_corr_value] at h
    rw [if_neg (by decide : ¬ (0 : ℕ) = 1), if_neg (by decide : ¬ (0 : ℕ) = 1)] at h
    injection h with h3
    norm_num [jsRound_eq_floor] at h3

/-- Witness for C8 at a concrete stream, dataset and spec. -/
theorem processHeatmapChart_correlation_witness :
    (∀ e ∈ processHeatmapChart (fun _ => 0) [[("a", JSVal.num 1), ("b", JSVal.num 2)]]
        ⟨"heatmap", some "a", some "b", none, none, some "correlation_matrix", none, none⟩,
      getField e "x" = getField e "y" → getField e "value" = JSVal.num 1) ∧
    ∃ d : List Row, ∃ sp : VisSpec, ∃ r1 r2 : ℕ → ℚ,
      processHeatmapChart r1 d sp ≠ processHeatmapChart r2 d sp :=
  processHeatmapChart_correlation (fun _ => 0) [[("a", JSVal.num 1), ("b", JSVal.num 2)]]
    ⟨"heatmap", some "a", some "b", none, none, some "correlation_matrix", none, none⟩
    (Or.inl rfl)

/-! ### C9: treemap rectangles have minimum dimensions 10×10 -/

theorem mem_layoutRow (n : ℕ) (rowArea width currentY actualRowHeight : ℚ)
    (nodes : List TNodeA) (currentX : ℚ) (r : TRect)
    (hr : r ∈ layoutRow n rowArea width currentY actualRowHeight nodes currentX) :
    10 ≤ r.width ∧ 10 ≤ r.height := by
  induction nodes generalizing currentX with
  | nil => simp [layoutRow] at hr
  | cons node rest ih =>
    simp only [layoutRow] at hr
    rcases List.mem_cons.mp hr with h | h
    · subst h
      exact ⟨le_max_left 10 _, le_max_left 10 _⟩
    · exact ih _ h

theorem mem_layoutLoop (width height : ℚ) (fuel : ℕ) (remaining : List TNodeA)
    (currentY : ℚ) (r : TRect) (hr : r ∈ layoutLoop width height fuel remaining currentY) :
    10 ≤ r.width ∧ 10 ≤ r.height := by
  induction fuel generalizing remaining currentY with
  | zero => simp [layoutLoop] at hr
  | succ fuel ih =>
    match remaining with
    | [] => simp [layoutLoop] at hr
    | node :: restNodes =>
      simp only [layoutLoop] at hr
      by_cases hy : currentY < height
      · rw [if_pos hy] at hr
        rcases List.mem_append.mp hr with h | h
        · exact mem_layoutRow _ _ _ _ _ _ _ r h
        · exact ih _ _ h
      · rw [if_neg hy] at hr
        simp at hr

/-- C9: for a nonempty node list with positive total value and positive
layout dimensions, every rectangle produced by `layoutTreemap` has width and
height at least `10` (the `Math.max(10, …)` clamps at the emission site). -/
theorem layoutTreemap_min_dims (nodes : List TNode) (width height : ℚ)
    (h1 : nodes ≠ []) (h2 : 0 < (nodes.map TNode.value).sum)
    (h3 : 0 < width) (h4 : 0 < height) :
    ∀ r ∈ layoutTreemap nodes width height, 10 ≤ r.width ∧ 10 ≤ r.height := by
  intro r hr
  unfold layoutTreemap at hr
  rw [if_neg (by simpa using h1), if_neg (by exact ne_of_gt h2)] at hr
  exact mem_layoutLoop _ _ _ _ _ r hr

/-- Witness for C9 on one node in a 100×100 layout. -/
theorem layoutTreemap_min_dims_witness :
    ([⟨"a", 1⟩] : List TNode) ≠ [] ∧
      (0 : ℚ) < (([⟨"a", 1⟩] : List TNode).map TNode.value).sum ∧
      (0 : ℚ) < 100 ∧ (0 : ℚ) < 100 ∧
      ∀ r ∈ layoutTreemap [⟨"a", 1⟩] 100 100, 10 ≤ r.width ∧ 10 ≤ r.height :=
  ⟨by simp, by norm_num, by norm_num, by norm_num,
    layoutTreemap_min_dims [⟨"a", 1⟩] 100 100 (by simp) (by norm_num)
      (by norm_num) (by norm_num)⟩

theorem foldl_option_inv {α β : Type} (step : Option β → α → Option β) (P : β → Prop)
    (hstep : ∀ acc a, (∀ x, acc = some x → P x) → ∀ y, step acc a = some y → P y)
    (l : List α) (acc : Option β) (hacc : ∀ x, acc = some x → P x) :
    ∀ y, l.foldl step acc = some y → P y := by
  induction l generalizing acc with
  | nil => intro y hy; exact hacc y hy
  | cons a rest ih => intro y hy; exact ih (step acc a) (hstep acc a hacc) y hy

/-- Every pass of the layout loop consumes at least one node: the
configuration search only ever keeps prefix lengths `i ≥ 1`, and the
fallback takes exactly one node.  This is what justifies running the
`while` loop on fuel `remaining.length` in `layoutLoop`. -/
theorem chooseRow_fst_pos (remaining : List TNodeA) (width availableHeight : ℚ) :
    1 ≤ (chooseRow remaining width availableHeight).1 := by
  unfold chooseRow
  dsimp only
  split
  · rename_i i a h x heq
    refine foldl_option_inv _ (fun x => 1 ≤ x.1) ?_ _ none (by intro x hx; cases hx) _ heq
    intro acc a2 hacc y hy
    rcases acc with _ | ⟨j, ar, hh, ba⟩
    · dsimp only at hy
      split_ifs at hy
      · injection hy with hyv
        subst hyv
        exact Nat.le_add_left 1 a2
    · dsimp only at hy
      split_ifs at hy
      · injection hy with hyv
        subst hyv
        exact Nat.le_add_left 1 a2
      · injection hy with hyv
        subst hyv
        exact hacc _ rfl
  · exact le_refl 1
